import Mathlib

/-!
Verification of the JSON codec library against its specification.

The Rust sources are shallowly embedded: byte slices become List Nat
(every element a byte value < 256), machine integers become Nat / Int,
fallible code returns Except, and the mutable parser state (the index of
SliceRead, the scratch buffer) is passed explicitly.  Definitions follow
src/src/read.rs, src/src/ser.rs, src/src/iter.rs, src/src/error.rs,
src/src/map.rs and src/src/value/mod.rs; the few places where a
definition stands in for code that is not part of the repository under
src/ (the reflection framework, the itoa / ryu crates, the missing
value/ser.rs and number.rs modules) are marked in their doc comments.
-/

/-- Error codes of the library, from the ErrorCode enum in error.rs.
Io and Message carry payloads irrelevant to the claims; Message keeps its
text.  The extra constructor PanicUnreachable models the unreachable
panic paths in the source (the .unwrap() in parse_escape); the proofs
show it is never produced on the inputs of interest. -/
inductive ErrorCode where
  | Message (msg : List Nat)
  | Io
  | EofWhileParsingList
  | EofWhileParsingObject
  | EofWhileParsingString
  | EofWhileParsingValue
  | ExpectedColon
  | ExpectedListCommaOrEnd
  | ExpectedObjectCommaOrEnd
  | ExpectedSomeIdent
  | ExpectedSomeValue
  | InvalidEscape
  | InvalidNumber
  | NumberOutOfRange
  | InvalidUnicodeCodePoint
  | ControlCharacterWhileParsingString
  | KeyMustBeAString
  | LoneLeadingSurrogateInHexEscape
  | TrailingComma
  | TrailingCharacters
  | UnexpectedEndOfHexEscape
  | RecursionLimitExceeded
  | PanicUnreachable
deriving DecidableEq, Repr

deriving instance DecidableEq for Except

/-- The slice r[start..stop] of a byte list, as used by the borrowing
paths of SliceRead. -/
def subslice (l : List Nat) (start stop : Nat) : List Nat :=
  (l.drop start).take (stop - start)

/-- The 256-entry ESCAPE lookup table of read.rs (lines 643-667): true
exactly at the control characters 0x00-0x1F (rows 0 and 1, marked CT),
the double quote 0x22 (QU) and the backslash 0x5C (BS). -/
def escape_read (b : Nat) : Bool :=
  b < 0x20 || b == 0x22 || b == 0x5C

/-- The HEX lookup table of read.rs together with decode_hex_val: bytes
0x30-0x39 map to 0-9, 0x41-0x46 and 0x61-0x66 map to 10-15, every other
byte holds the sentinel 255 which decode_hex_val turns into None. -/
def decode_hex_val (b : Nat) : Option Nat :=
  if 0x30 ≤ b ∧ b ≤ 0x39 then some (b - 0x30)
  else if 0x41 ≤ b ∧ b ≤ 0x46 then some (b - 0x41 + 10)
  else if 0x61 ≤ b ∧ b ≤ 0x66 then some (b - 0x61 + 10)
  else none

/-- SliceRead::decode_hex_escape (read.rs lines 472-490): reads four hex
digits starting at index, folding them as n = (n << 4) + val.  Returns
the value together with the index after the four digits.  If fewer than
four bytes remain the index is clamped to the end and the EOF error is
returned (errors abort the whole parse, so the clamped index needs no
separate modelling). -/
def decode_hex_escape (slice : List Nat) (index : Nat) :
    Except ErrorCode (Nat × Nat) :=
  if index + 4 > slice.length then .error .EofWhileParsingString
  else
    match decode_hex_val (slice.getD index 0) with
    | none => .error .InvalidEscape
    | some v0 =>
      match decode_hex_val (slice.getD (index + 1) 0) with
      | none => .error .InvalidEscape
      | some v1 =>
        match decode_hex_val (slice.getD (index + 2) 0) with
        | none => .error .InvalidEscape
        | some v2 =>
          match decode_hex_val (slice.getD (index + 3) 0) with
          | none => .error .InvalidEscape
          | some v3 =>
            let n0 := (0 <<< 4) + v0
            let n1 := (n0 <<< 4) + v1
            let n2 := (n1 <<< 4) + v2
            .ok ((n2 <<< 4) + v3, index + 4)

/-- char::from_u32 on the scalar-value level: None for surrogates and
values above 0x10FFFF, otherwise the value itself. -/
def charFromU32 (n : Nat) : Option Nat :=
  if 0xD800 ≤ n ∧ n ≤ 0xDFFF then none
  else if n > 0x10FFFF then none
  else some n

/-- char::encode_utf8 on the scalar-value level, written with division
and remainder (c >>> 6 = c / 64, c &&& 0x3F = c % 64, and the tag bits
are added because the masked value is below the tag). -/
def encodeUtf8 (c : Nat) : List Nat :=
  if c < 0x80 then [c]
  else if c < 0x800 then [0xC0 + c / 64, 0x80 + c % 64]
  else if c < 0x10000 then [0xE0 + c / 4096, 0x80 + c / 64 % 64, 0x80 + c % 64]
  else [0xF0 + c / 262144, 0x80 + c / 4096 % 64, 0x80 + c / 64 % 64,
    0x80 + c % 64]

/-- The local fn encode_surrogate of parse_escape (read.rs lines
720-726): pushes the three raw UTF-8-shaped bytes of a surrogate value
(n >> 12 & 0x0F) | 0xE0, (n >> 6 & 0x3F) | 0x80, (n & 0x3F) | 0x80,
written with division and remainder. -/
def encode_surrogate (n : Nat) : List Nat :=
  [0xE0 + n / 4096 % 16, 0x80 + n / 64 % 64, 0x80 + n % 64]

theorem decode_hex_val_lt {b v : Nat} (hb : decode_hex_val b = some v) :
    v < 16 := by
  unfold decode_hex_val at hb
  split at hb
  · simp only [Option.some.injEq] at hb; omega
  · split at hb
    · simp only [Option.some.injEq] at hb; omega
    · split at hb
      · simp only [Option.some.injEq] at hb; omega
      · exact absurd hb (by simp)

theorem decode_hex_escape_ok {slice : List Nat} {index n j : Nat}
    (h : decode_hex_escape slice index = .ok (n, j)) :
    j = index + 4 ∧ n < 0x10000 ∧ index + 4 ≤ slice.length := by
  unfold decode_hex_escape at h
  split at h
  · exact absurd h (by simp)
  · rename_i hlen
    cases h0 : decode_hex_val (slice.getD index 0) with
    | none => rw [h0] at h; simp at h
    | some v0 =>
    cases h1 : decode_hex_val (slice.getD (index + 1) 0) with
    | none => rw [h0, h1] at h; simp at h
    | some v1 =>
    cases h2 : decode_hex_val (slice.getD (index + 2) 0) with
    | none => rw [h0, h1, h2] at h; simp at h
    | some v2 =>
    cases h3 : decode_hex_val (slice.getD (index + 3) 0) with
    | none => rw [h0, h1, h2, h3] at h; simp at h
    | some v3 =>
    rw [h0, h1, h2, h3] at h
    simp only [Except.ok.injEq, Prod.mk.injEq] at h
    have b0 := decode_hex_val_lt h0
    have b1 := decode_hex_val_lt h1
    have b2 := decode_hex_val_lt h2
    have b3 := decode_hex_val_lt h3
    refine ⟨h.2.symm, ?_, by omega⟩
    simp only [Nat.shiftLeft_eq] at h
    omega

/-- fn parse_escape of read.rs (lines 703-794), specialised to the
SliceRead source: index points at the byte just after the backslash; the
function returns the extended scratch buffer together with the new
index.  next_or_eof and peek_or_eof become bounds checks on the slice;
errors discard the state.  The unreachable .unwrap() of the final match
arm is modelled by the PanicUnreachable error code. -/
def parse_escape (slice : List Nat) (validate : Bool) (index : Nat)
    (scratch : List Nat) : Except ErrorCode (List Nat × Nat) :=
  if h : index < slice.length then
    let ch := slice[index]
    if ch = 0x22 then .ok (scratch ++ [0x22], index + 1)
    else if ch = 0x5C then .ok (scratch ++ [0x5C], index + 1)
    else if ch = 0x2F then .ok (scratch ++ [0x2F], index + 1)
    else if ch = 0x62 then .ok (scratch ++ [0x08], index + 1)
    else if ch = 0x66 then .ok (scratch ++ [0x0C], index + 1)
    else if ch = 0x6E then .ok (scratch ++ [0x0A], index + 1)
    else if ch = 0x72 then .ok (scratch ++ [0x0D], index + 1)
    else if ch = 0x74 then .ok (scratch ++ [0x09], index + 1)
    else if ch = 0x75 then
      match hdec : decode_hex_escape slice (index + 1) with
      | .error e => .error e
      | .ok (n, index2) =>
        if 0xDC00 ≤ n ∧ n ≤ 0xDFFF then
          if validate then .error .LoneLeadingSurrogateInHexEscape
          else .ok (scratch ++ encode_surrogate n, index2)
        else if hn1 : 0xD800 ≤ n ∧ n ≤ 0xDBFF then
          if h2 : index2 < slice.length then
            if slice[index2] = 0x5C then
              -- the backslash is discarded
              if h3 : index2 + 1 < slice.length then
                if slice[index2 + 1] = 0x75 then
                  -- the u is discarded
                  match decode_hex_escape slice (index2 + 2) with
                  | .error e => .error e
                  | .ok (n2, index3) =>
                    if n2 < 0xDC00 ∨ n2 > 0xDFFF then
                      .error .LoneLeadingSurrogateInHexEscape
                    else
                      match charFromU32
                          (((n - 0xD800) <<< 10 ||| (n2 - 0xDC00))
                            + 0x10000) with
                      | some c => .ok (scratch ++ encodeUtf8 c, index3)
                      | none => .error .InvalidUnicodeCodePoint
                else
                  if validate then .error .UnexpectedEndOfHexEscape
                  else
                    -- the byte that is not a u starts the next escape
                    parse_escape slice validate (index2 + 1)
                      (scratch ++ encode_surrogate n)
              else .error .EofWhileParsingString
            else
              if validate then .error .UnexpectedEndOfHexEscape
              else .ok (scratch ++ encode_surrogate n, index2)
          else .error .EofWhileParsingString
        else
          match charFromU32 n with
          | some c => .ok (scratch ++ encodeUtf8 c, index2)
          | none => .error .PanicUnreachable
    else .error .InvalidEscape
  else .error .EofWhileParsingString
termination_by slice.length - index
decreasing_by
  have := (decode_hex_escape_ok hdec).1
  omega

/-- On success parse_escape strictly advances the index (never past the
end) and strictly extends the scratch buffer. -/
theorem parse_escape_spec (slice : List Nat) (validate : Bool) :
    ∀ k index scratch out j, slice.length - index ≤ k →
      parse_escape slice validate index scratch = .ok (out, j) →
      index < j ∧ j ≤ slice.length ∧ ∃ t, t ≠ [] ∧ out = scratch ++ t := by
  intro k
  induction k with
  | zero =>
    intro index scratch out j hk h
    unfold parse_escape at h
    rw [dif_neg (by omega)] at h
    exact absurd h (by simp)
  | succ k ih =>
    intro index scratch out j hk h
    by_cases hidx : index < slice.length
    case neg =>
      unfold parse_escape at h
      rw [dif_neg hidx] at h
      exact absurd h (by simp)
    unfold parse_escape at h
    rw [dif_pos hidx] at h
    simp only [] at h
    by_cases c34 : slice[index] = 34
    · rw [if_pos c34] at h
      simp only [Except.ok.injEq, Prod.mk.injEq] at h
      exact ⟨by omega, by omega, [0x22], by simp, h.1.symm⟩
    rw [if_neg c34] at h
    by_cases c92 : slice[index] = 92
    · rw [if_pos c92] at h
      simp only [Except.ok.injEq, Prod.mk.injEq] at h
      exact ⟨by omega, by omega, [0x5C], by simp, h.1.symm⟩
    rw [if_neg c92] at h
    by_cases c47 : slice[index] = 47
    · rw [if_pos c47] at h
      simp only [Except.ok.injEq, Prod.mk.injEq] at h
      exact ⟨by omega, by omega, [0x2F], by simp, h.1.symm⟩
    rw [if_neg c47] at h
    by_cases c98 : slice[index] = 98
    · rw [if_pos c98] at h
      simp only [Except.ok.injEq, Prod.mk.injEq] at h
      exact ⟨by omega, by omega, [0x08], by simp, h.1.symm⟩
    rw [if_neg c98] at h
    by_cases c102 : slice[index] = 102
    · rw [if_pos c102] at h
      simp only [Except.ok.injEq, Prod.mk.injEq] at h
      exact ⟨by omega, by omega, [0x0C], by simp, h.1.symm⟩
    rw [if_neg c102] at h
    by_cases c110 : slice[index] = 110
    · rw [if_pos c110] at h
      simp only [Except.ok.injEq, Prod.mk.injEq] at h
      exact ⟨by omega, by omega, [0x0A], by simp, h.1.symm⟩
    rw [if_neg c110] at h
    by_cases c114 : slice[index] = 114
    · rw [if_pos c114] at h
      simp only [Except.ok.injEq, Prod.mk.injEq] at h
      exact ⟨by omega, by omega, [0x0D], by simp, h.1.symm⟩
    rw [if_neg c114] at h
    by_cases c116 : slice[index] = 116
    · rw [if_pos c116] at h
      simp only [Except.ok.injEq, Prod.mk.injEq] at h
      exact ⟨by omega, by omega, [0x09], by simp, h.1.symm⟩
    rw [if_neg c116] at h
    by_cases c117 : slice[index] = 117
    case neg =>
      rw [if_neg c117] at h
      exact absurd h (by simp)
    rw [if_pos c117] at h
    split at h
    · exact absurd h (by simp)
    rename_i n index2 hdec
    have hd := decode_hex_escape_ok hdec
    by_cases clo : 0xDC00 ≤ n ∧ n ≤ 0xDFFF
    · rw [if_pos clo] at h
      split at h
      · exact absurd h (by simp)
      · simp only [Except.ok.injEq, Prod.mk.injEq] at h
        exact ⟨by omega, by omega, encode_surrogate n,
          by simp [encode_surrogate], h.1.symm⟩
    rw [if_neg clo] at h
    by_cases chi : 0xD800 ≤ n ∧ n ≤ 0xDBFF
    case neg =>
      rw [dif_neg chi] at h
      cases hc : charFromU32 n with
      | none => rw [hc] at h; exact absurd h (by simp)
      | some c =>
        rw [hc] at h
        simp only [Except.ok.injEq, Prod.mk.injEq] at h
        refine ⟨by omega, by omega, encodeUtf8 c, ?_, h.1.symm⟩
        unfold encodeUtf8
        repeat' split
        all_goals simp
    rw [dif_pos chi] at h
    by_cases h2 : index2 < slice.length
    case neg =>
      rw [dif_neg h2] at h
      exact absurd h (by simp)
    rw [dif_pos h2] at h
    by_cases cbs : slice[index2] = 92
    case neg =>
      rw [if_neg cbs] at h
      split at h
      · exact absurd h (by simp)
      · simp only [Except.ok.injEq, Prod.mk.injEq] at h
        exact ⟨by omega, by omega, encode_surrogate n,
          by simp [encode_surrogate], h.1.symm⟩
    rw [if_pos cbs] at h
    by_cases h3 : index2 + 1 < slice.length
    case neg =>
      rw [dif_neg h3] at h
      exact absurd h (by simp)
    rw [dif_pos h3] at h
    by_cases cu2 : slice[index2 + 1] = 117
    case neg =>
      rw [if_neg cu2] at h
      split at h
      · exact absurd h (by simp)
      · have hrec := ih (index2 + 1) (scratch ++ encode_surrogate n) out j
          (by omega) h
        refine ⟨by omega, hrec.2.1, ?_⟩
        obtain ⟨t, htne, hteq⟩ := hrec.2.2
        exact ⟨encode_surrogate n ++ t, by simp [encode_surrogate],
          by simp [hteq]⟩
    rw [if_pos cu2] at h
    split at h
    · exact absurd h (by simp)
    rename_i n2 index3 hdec2
    have hd2 := decode_hex_escape_ok hdec2
    split at h
    · exact absurd h (by simp)
    cases hc : charFromU32 (((n - 0xD800) <<< 10 ||| (n2 - 0xDC00)) + 0x10000) with
    | none => rw [hc] at h; exact absurd h (by simp)
    | some c =>
      rw [hc] at h
      simp only [Except.ok.injEq, Prod.mk.injEq] at h
      refine ⟨by omega, by omega, encodeUtf8 c, ?_, h.1.symm⟩
      unfold encodeUtf8
      repeat' split
      all_goals simp

/-- The inner while loop of SliceRead::parse_str_bytes (read.rs line
357): advances the index over bytes that need no special handling,
stopping at the first byte marked in the ESCAPE table or at the end of
the slice. -/
def skip_to_escape (slice : List Nat) (index : Nat) : Nat :=
  if h : index < slice.length then
    if escape_read slice[index] then index else skip_to_escape slice (index + 1)
  else index
termination_by slice.length - index

theorem skip_to_escape_ge (slice : List Nat) (index : Nat) :
    index ≤ skip_to_escape slice index := by
  induction index using skip_to_escape.induct slice with
  | case1 index h heq =>
    unfold skip_to_escape
    simp [h, heq]
  | case2 index h heq ih =>
    unfold skip_to_escape
    simp only [dif_pos h, if_neg heq]
    omega
  | case3 index h =>
    unfold skip_to_escape
    simp [h]

theorem skip_to_escape_le (slice : List Nat) (index : Nat)
    (hle : index ≤ slice.length) :
    skip_to_escape slice index ≤ slice.length := by
  induction index using skip_to_escape.induct slice with
  | case1 index h heq =>
    unfold skip_to_escape
    simp [h, heq]
    omega
  | case2 index h heq ih =>
    unfold skip_to_escape
    simp only [dif_pos h, if_neg heq]
    exact ih (by omega)
  | case3 index h =>
    unfold skip_to_escape
    simp [h]
    omega

theorem skip_to_escape_hit (slice : List Nat) (index : Nat)
    (hlt : skip_to_escape slice index < slice.length) :
    escape_read (slice.getD (skip_to_escape slice index) 0) = true := by
  induction index using skip_to_escape.induct slice with
  | case1 index h heq =>
    rw [skip_to_escape] at hlt ⊢
    simp only [dif_pos h, if_pos heq] at hlt ⊢
    simp [List.getD_eq_getElem?_getD, List.getElem?_eq_getElem h, heq]
  | case2 index h heq ih =>
    rw [skip_to_escape] at hlt ⊢
    simp only [dif_pos h, if_neg heq] at hlt ⊢
    exact ih hlt
  | case3 index h =>
    rw [skip_to_escape] at hlt
    simp only [dif_neg h] at hlt
    omega

theorem skip_to_escape_before (slice : List Nat) (index : Nat) :
    ∀ k, index ≤ k → k < skip_to_escape slice index →
      escape_read (slice.getD k 0) = false := by
  induction index using skip_to_escape.induct slice with
  | case1 index h heq =>
    intro k hk1 hk2
    rw [skip_to_escape] at hk2
    simp only [dif_pos h, if_pos heq] at hk2
    omega
  | case2 index h heq ih =>
    intro k hk1 hk2
    rw [skip_to_escape] at hk2
    simp only [dif_pos h, if_neg heq] at hk2
    rcases Nat.eq_or_lt_of_le hk1 with rfl | hlt
    · simp [List.getD_eq_getElem?_getD, List.getElem?_eq_getElem h]
      simpa using heq
    · exact ih k (by omega) hk2
  | case3 index h =>
    intro k hk1 hk2
    rw [skip_to_escape] at hk2
    simp only [dif_neg h] at hk2
    omega

/-- The two-armed result of parse_str: a reference borrowed from the
input slice, or a reference into the (copied) scratch buffer, from the
Reference enum of read.rs (lines 80-86). -/
inductive Reference where
  | Borrowed (s : List Nat)
  | Copied (s : List Nat)
deriving DecidableEq, Repr

/-- The bytes a Reference dereferences to (the Deref impl of read.rs). -/
def Reference.deref : Reference → List Nat
  | .Borrowed s => s
  | .Copied s => s

/-- The main loop of SliceRead::parse_str_bytes (read.rs lines 343-390).
start is the index of the first byte not yet copied into the scratch
buffer; index is the current position.  On the closing quote the result
is borrowed from the slice when the scratch buffer is still empty and
copied otherwise; a backslash flushes the pending bytes into the scratch
buffer and runs parse_escape; a control byte is an error under
validation and is skipped (staying part of the pending range) without
it.  The result continuation of the source is applied by the callers
slice_parse_str / slice_parse_str_raw below. -/
def parse_str_bytes_loop (slice : List Nat) (validate : Bool)
    (start index : Nat) (scratch : List Nat) :
    Except ErrorCode (Reference × Nat) :=
  if hj : skip_to_escape slice index < slice.length then
    if slice[skip_to_escape slice index] = 0x22 then
      if scratch = [] then
        .ok (.Borrowed (subslice slice start (skip_to_escape slice index)),
          skip_to_escape slice index + 1)
      else
        .ok (.Copied
          (scratch ++ subslice slice start (skip_to_escape slice index)),
          skip_to_escape slice index + 1)
    else if slice[skip_to_escape slice index] = 0x5C then
      match hpe : parse_escape slice validate (skip_to_escape slice index + 1)
          (scratch ++ subslice slice start (skip_to_escape slice index)) with
      | .error e => .error e
      | .ok (scratch2, index2) =>
        parse_str_bytes_loop slice validate index2 index2 scratch2
    else
      if validate then .error .ControlCharacterWhileParsingString
      else parse_str_bytes_loop slice validate start
        (skip_to_escape slice index + 1) scratch
  else .error .EofWhileParsingString
termination_by slice.length - index
decreasing_by
  · have hge := skip_to_escape_ge slice index
    have := (parse_escape_spec slice validate slice.length
      (skip_to_escape slice index + 1) _ _ _ (by omega) hpe).1
    omega
  · have hge := skip_to_escape_ge slice index
    omega

/-- Whether a byte is a UTF-8 continuation byte. -/
def utf8_cont (b : Nat) : Bool := 0x80 ≤ b && b ≤ 0xBF

mutual

/-- Success of str::from_utf8 on a byte list: the standard UTF-8
validation automaton with the shortest-form and surrogate restrictions
(lead bytes C0, C1 and F5-FF rejected; E0 requires A0-BF, ED requires
80-9F, F0 requires 90-BF, F4 requires 80-8F for the first continuation
byte).  Used to model the as_str result continuation of parse_str. -/
def utf8_check : List Nat → Bool
  | [] => true
  | b :: rest =>
    if b < 0x80 then utf8_check rest
    else if b < 0xC2 then false
    else if b ≤ 0xDF then utf8_check_tail1 rest
    else if b ≤ 0xEF then utf8_check_tail2 b rest
    else if b ≤ 0xF4 then utf8_check_tail3 b rest
    else false

/-- One continuation byte after a two-byte lead. -/
def utf8_check_tail1 : List Nat → Bool
  | c1 :: r => utf8_cont c1 && utf8_check r
  | [] => false

/-- Two continuation bytes after a three-byte lead, with the E0 / ED
first-byte restrictions. -/
def utf8_check_tail2 (b : Nat) : List Nat → Bool
  | c1 :: c2 :: r =>
    (if b = 0xE0 then 0xA0 ≤ c1 && c1 ≤ 0xBF
     else if b = 0xED then 0x80 ≤ c1 && c1 ≤ 0x9F
     else utf8_cont c1) && utf8_cont c2 && utf8_check r
  | _ => false

/-- Three continuation bytes after a four-byte lead, with the F0 / F4
first-byte restrictions. -/
def utf8_check_tail3 (b : Nat) : List Nat → Bool
  | c1 :: c2 :: c3 :: r =>
    (if b = 0xF0 then 0x90 ≤ c1 && c1 ≤ 0xBF
     else if b = 0xF4 then 0x80 ≤ c1 && c1 ≤ 0x8F
     else utf8_cont c1) && utf8_cont c2 && utf8_cont c3 && utf8_check r
  | _ => false

end

/-- SliceRead::parse_str_bytes (read.rs lines 343-390): the loop started
with start = index. -/
def parse_str_bytes (slice : List Nat) (validate : Bool) (index : Nat)
    (scratch : List Nat) : Except ErrorCode (Reference × Nat) :=
  parse_str_bytes_loop slice validate index index scratch

/-- SliceRead::parse_str (read.rs lines 437-439): parse_str_bytes with
validation on and the as_str result continuation, which accepts exactly
the byte sequences str::from_utf8 accepts and otherwise reports
InvalidUnicodeCodePoint.  The continuation of the source runs just
before the quote branch returns; applying it to the returned reference
is the same computation. -/
def slice_parse_str (slice : List Nat) (index : Nat)
    (scratch : List Nat) : Except ErrorCode (Reference × Nat) :=
  match parse_str_bytes slice true index scratch with
  | .error e => .error e
  | .ok (r, f) =>
    if utf8_check r.deref then .ok (r, f)
    else .error .InvalidUnicodeCodePoint

/-- SliceRead::parse_str_raw (read.rs lines 441-446): validation off,
identity result continuation. -/
def slice_parse_str_raw (slice : List Nat) (index : Nat)
    (scratch : List Nat) : Except ErrorCode (Reference × Nat) :=
  parse_str_bytes slice false index scratch

theorem mem_subslice_exists {slice : List Nat} {i j : Nat} {b : Nat}
    (hb : b ∈ subslice slice i j) :
    ∃ k, i ≤ k ∧ k < j ∧ k < slice.length ∧ slice.getD k 0 = b := by
  unfold subslice at hb
  rw [List.mem_iff_getElem?] at hb
  obtain ⟨p, hp⟩ := hb
  rw [List.getElem?_take] at hp
  split at hp
  · rw [List.getElem?_drop] at hp
    have hlt : i + p < slice.length := by
      by_contra hge
      rw [List.getElem?_eq_none (by omega)] at hp
      exact absurd hp (by simp)
    refine ⟨i + p, by omega, by omega, hlt, ?_⟩
    rw [List.getD_eq_getElem?_getD, hp]
    rfl
  · exact absurd hp (by simp)

theorem getD_mem_subslice {slice : List Nat} {i j k : Nat}
    (h1 : i ≤ k) (h2 : k < j) (h3 : k < slice.length) :
    slice.getD k 0 ∈ subslice slice i j := by
  unfold subslice
  rw [List.mem_iff_getElem?]
  refine ⟨k - i, ?_⟩
  rw [List.getElem?_take, if_pos (by omega), List.getElem?_drop]
  have hik : i + (k - i) = k := by omega
  rw [hik, List.getD_eq_getElem?_getD, List.getElem?_eq_getElem h3]
  rfl

/-- Core dichotomy of the slice string parser under validation: on
success the final index sits just past a closing quote; the result is
borrowed exactly when the scratch buffer stays untouched, which happens
exactly when the consumed string body holds no backslash. -/
theorem parse_str_loop_spec (slice : List Nat) :
    ∀ k index scratch r f, slice.length - index ≤ k →
      parse_str_bytes_loop slice true index index scratch = .ok (r, f) →
      index < f ∧ f ≤ slice.length ∧ slice.getD (f - 1) 0 = 0x22 ∧
      (scratch = [] → (0x5C ∉ subslice slice index (f - 1)) →
        r = .Borrowed (subslice slice index (f - 1))) ∧
      ((scratch ≠ [] ∨ 0x5C ∈ subslice slice index (f - 1)) →
        ∃ c, r = .Copied c) := by
  intro k
  induction k with
  | zero =>
    intro index scratch r f hk h
    unfold parse_str_bytes_loop at h
    have hge := skip_to_escape_ge slice index
    rw [dif_neg (by omega)] at h
    exact absurd h (by simp)
  | succ k ih =>
    intro index scratch r f hk h
    unfold parse_str_bytes_loop at h
    set j := skip_to_escape slice index with hjdef
    have hge : index ≤ j := skip_to_escape_ge slice index
    by_cases hj : j < slice.length
    case neg =>
      rw [dif_neg hj] at h
      exact absurd h (by simp)
    rw [dif_pos hj] at h
    have hgetj : slice.getD j 0 = slice[j] := by
      rw [List.getD_eq_getElem?_getD, List.getElem?_eq_getElem hj]
      rfl
    by_cases c34 : slice[j] = 34
    · rw [if_pos c34] at h
      by_cases hs : scratch = []
      · rw [if_pos hs] at h
        simp only [Except.ok.injEq, Prod.mk.injEq] at h
        obtain ⟨hr, hf⟩ := h
        have hf1 : f - 1 = j := by omega
        refine ⟨by omega, by omega, by rw [hf1, hgetj, c34], ?_, ?_⟩
        · intro _ _
          rw [hf1]
          exact hr.symm
        · intro hor
          rcases hor with hne | hmem
          · exact absurd hs hne
          · exfalso
            rw [hf1] at hmem
            obtain ⟨kk, hk1, hk2, hk3, hkb⟩ := mem_subslice_exists hmem
            have := skip_to_escape_before slice index kk hk1 hk2
            rw [hkb] at this
            simp [escape_read] at this
      · rw [if_neg hs] at h
        simp only [Except.ok.injEq, Prod.mk.injEq] at h
        obtain ⟨hr, hf⟩ := h
        have hf1 : f - 1 = j := by omega
        refine ⟨by omega, by omega, by rw [hf1, hgetj, c34], ?_, ?_⟩
        · intro hc _
          exact absurd hc hs
        · intro _
          exact ⟨scratch ++ subslice slice index j, hr.symm⟩
    rw [if_neg c34] at h
    by_cases c92 : slice[j] = 92
    · rw [if_pos c92] at h
      split at h
      · exact absurd h (by simp)
      rename_i scratch2 index2 hpe
      obtain ⟨hlt2, hle2, t, htne, hteq⟩ :=
        parse_escape_spec slice true slice.length (j + 1) _ _ _
          (by omega) hpe
      have hrec := ih index2 scratch2 r f (by omega) h
      obtain ⟨hif, hfl, hq, _, hB⟩ := hrec
      have hs2 : scratch2 ≠ [] := by
        rw [hteq]
        intro hcontra
        have := List.append_eq_nil.mp hcontra
        exact htne this.2
      obtain ⟨c, hc⟩ := hB (Or.inl hs2)
      refine ⟨by omega, hfl, hq, ?_, fun _ => ⟨c, hc⟩⟩
      intro _ hnmem
      exfalso
      apply hnmem
      have : slice.getD j 0 ∈ subslice slice index (f - 1) :=
        getD_mem_subslice hge (by omega) hj
      rw [hgetj, c92] at this
      exact this
    rw [if_neg c92] at h
    rw [if_pos rfl] at h
    exact absurd h (by simp)

/-- C1: for every byte-slice input, when SliceRead::parse_str is called
with an initially empty scratch buffer and succeeds, the final index f
sits just past the closing quote, and the result is a Borrowed
reference holding exactly the input bytes between the opening position
and the closing quote when that body has no backslash, and a Copied
reference (into the scratch buffer) when the body contains a backslash
escape. -/
theorem claim_C1 (slice : List Nat) (index : Nat) (r : Reference) (f : Nat)
    (h : slice_parse_str slice index [] = .ok (r, f)) :
    index < f ∧ f ≤ slice.length ∧ slice.getD (f - 1) 0 = 0x22 ∧
    ((0x5C ∉ subslice slice index (f - 1)) →
      r = .Borrowed (subslice slice index (f - 1))) ∧
    ((0x5C ∈ subslice slice index (f - 1)) → ∃ c, r = .Copied c) := by
  unfold slice_parse_str parse_str_bytes at h
  split at h
  · exact absurd h (by simp)
  rename_i r0 f0 hloop
  split at h
  case isFalse => exact absurd h (by simp)
  simp only [Except.ok.injEq, Prod.mk.injEq] at h
  obtain ⟨hr0, hf0⟩ := h
  obtain ⟨h1, h2, h3, hA, hB⟩ :=
    parse_str_loop_spec slice slice.length index [] r0 f0 (by omega) hloop
  subst hr0
  subst hf0
  exact ⟨h1, h2, h3, fun hn => hA rfl hn, fun hm => hB (Or.inr hm)⟩

unseal skip_to_escape parse_escape parse_str_bytes_loop in
theorem claim_C1_witness :
    (0 : Nat) < 4 ∧ 4 ≤ 5 ∧ [97, 98, 99, 34, 120].getD (4 - 1) 0 = 0x22 ∧
    ((0x5C ∉ subslice [97, 98, 99, 34, 120] 0 (4 - 1)) →
      Reference.Borrowed [97, 98, 99]
        = .Borrowed (subslice [97, 98, 99, 34, 120] 0 (4 - 1))) ∧
    ((0x5C ∈ subslice [97, 98, 99, 34, 120] 0 (4 - 1)) →
      ∃ c, Reference.Borrowed [97, 98, 99] = .Copied c) :=
  claim_C1 [97, 98, 99, 34, 120] 0 (.Borrowed [97, 98, 99]) 4 rfl

/-- The body of the u-arm of parse_escape, restated as a standalone
definition (identical text to the corresponding arm of parse_escape) so
the behaviour of the escape decoder on \uXXXX escapes can be reasoned
about without rebuilding the leading byte dispatch each time. -/
def pe_u_branch (slice : List Nat) (validate : Bool) (index : Nat)
    (scratch : List Nat) : Except ErrorCode (List Nat × Nat) :=
  match decode_hex_escape slice (index + 1) with
  | .error e => .error e
  | .ok (n, index2) =>
    if 0xDC00 ≤ n ∧ n ≤ 0xDFFF then
      if validate then .error .LoneLeadingSurrogateInHexEscape
      else .ok (scratch ++ encode_surrogate n, index2)
    else if hn1 : 0xD800 ≤ n ∧ n ≤ 0xDBFF then
      if h2 : index2 < slice.length then
        if slice[index2] = 0x5C then
          if h3 : index2 + 1 < slice.length then
            if slice[index2 + 1] = 0x75 then
              match decode_hex_escape slice (index2 + 2) with
              | .error e => .error e
              | .ok (n2, index3) =>
                if n2 < 0xDC00 ∨ n2 > 0xDFFF then
                  .error .LoneLeadingSurrogateInHexEscape
                else
                  match charFromU32
                      (((n - 0xD800) <<< 10 ||| (n2 - 0xDC00)) + 0x10000) with
                  | some c => .ok (scratch ++ encodeUtf8 c, index3)
                  | none => .error .InvalidUnicodeCodePoint
            else
              if validate then .error .UnexpectedEndOfHexEscape
              else parse_escape slice validate (index2 + 1)
                (scratch ++ encode_surrogate n)
          else .error .EofWhileParsingString
        else
          if validate then .error .UnexpectedEndOfHexEscape
          else .ok (scratch ++ encode_surrogate n, index2)
      else .error .EofWhileParsingString
    else
      match charFromU32 n with
      | some c => .ok (scratch ++ encodeUtf8 c, index2)
      | none => .error .PanicUnreachable

theorem parse_escape_u_eq (slice : List Nat) (validate : Bool)
    (index : Nat) (scratch : List Nat) (hidx : index < slice.length)
    (he : slice.getD index 0 = 0x75) :
    parse_escape slice validate index scratch
      = pe_u_branch slice validate index scratch := by
  have he2 : slice[index] = 117 := by
    rwa [List.getD_eq_getElem?_getD, List.getElem?_eq_getElem hidx,
      Option.getD_some] at he
  unfold parse_escape
  rw [dif_pos hidx]
  repeat rw [if_neg (by omega)]
  rw [if_pos he2]
  unfold pe_u_branch
  split
  · rename_i e heq
    rw [heq]
  · rename_i n index2 heq
    rw [heq]

/-- C2 (amended): behaviour of the \uXXXX escape decoder.  With
validation on: a high surrogate immediately followed by a \u escape
whose value is a low surrogate combines by the formula
((high - 0xD800) << 10 | (low - 0xDC00)) + 0x10000 and is UTF-8
encoded; a low surrogate appearing first fails with
LoneLeadingSurrogateInHexEscape; a high surrogate followed by an
existing byte other than a backslash, or by a backslash followed by an
existing byte other than u, fails with UnexpectedEndOfHexEscape, while
input that ends at either of those two positions fails with
EofWhileParsingString instead.  With validation off, a lone surrogate
is encoded raw; in particular \uD800 yields the three bytes
ED A0 80. -/
theorem claim_C2_amended :
    (∀ (slice : List Nat) (index : Nat) (scratch : List Nat)
      (n1 j1 n2 j2 : Nat),
      index < slice.length → slice.getD index 0 = 0x75 →
      decode_hex_escape slice (index + 1) = .ok (n1, j1) →
      0xD800 ≤ n1 ∧ n1 ≤ 0xDBFF →
      j1 < slice.length → slice.getD j1 0 = 0x5C →
      j1 + 1 < slice.length → slice.getD (j1 + 1) 0 = 0x75 →
      decode_hex_escape slice (j1 + 2) = .ok (n2, j2) →
      0xDC00 ≤ n2 ∧ n2 ≤ 0xDFFF →
      parse_escape slice true index scratch
        = .ok (scratch ++ encodeUtf8
            (((n1 - 0xD800) <<< 10 ||| (n2 - 0xDC00)) + 0x10000), j2)) ∧
    (∀ (slice : List Nat) (index : Nat) (scratch : List Nat) (n j : Nat),
      index < slice.length → slice.getD index 0 = 0x75 →
      decode_hex_escape slice (index + 1) = .ok (n, j) →
      0xDC00 ≤ n ∧ n ≤ 0xDFFF →
      parse_escape slice true index scratch
        = .error .LoneLeadingSurrogateInHexEscape) ∧
    (∀ (slice : List Nat) (index : Nat) (scratch : List Nat) (n1 j1 : Nat),
      index < slice.length → slice.getD index 0 = 0x75 →
      decode_hex_escape slice (index + 1) = .ok (n1, j1) →
      0xD800 ≤ n1 ∧ n1 ≤ 0xDBFF →
      j1 < slice.length → slice.getD j1 0 ≠ 0x5C →
      parse_escape slice true index scratch
        = .error .UnexpectedEndOfHexEscape) ∧
    (∀ (slice : List Nat) (index : Nat) (scratch : List Nat) (n1 j1 : Nat),
      index < slice.length → slice.getD index 0 = 0x75 →
      decode_hex_escape slice (index + 1) = .ok (n1, j1) →
      0xD800 ≤ n1 ∧ n1 ≤ 0xDBFF →
      j1 < slice.length → slice.getD j1 0 = 0x5C →
      j1 + 1 < slice.length → slice.getD (j1 + 1) 0 ≠ 0x75 →
      parse_escape slice true index scratch
        = .error .UnexpectedEndOfHexEscape) ∧
    (∀ (slice : List Nat) (index : Nat) (scratch : List Nat) (n1 j1 : Nat),
      index < slice.length → slice.getD index 0 = 0x75 →
      decode_hex_escape slice (index + 1) = .ok (n1, j1) →
      0xD800 ≤ n1 ∧ n1 ≤ 0xDBFF →
      ¬ j1 < slice.length →
      parse_escape slice true index scratch
        = .error .EofWhileParsingString) ∧
    (∀ (slice : List Nat) (index : Nat) (scratch : List Nat) (n1 j1 : Nat),
      index < slice.length → slice.getD index 0 = 0x75 →
      decode_hex_escape slice (index + 1) = .ok (n1, j1) →
      0xD800 ≤ n1 ∧ n1 ≤ 0xDBFF →
      j1 < slice.length → slice.getD j1 0 = 0x5C →
      ¬ j1 + 1 < slice.length →
      parse_escape slice true index scratch
        = .error .EofWhileParsingString) ∧
    (∀ (slice : List Nat) (index : Nat) (scratch : List Nat) (n j : Nat),
      index < slice.length → slice.getD index 0 = 0x75 →
      decode_hex_escape slice (index + 1) = .ok (n, j) →
      0xDC00 ≤ n ∧ n ≤ 0xDFFF →
      parse_escape slice false index scratch
        = .ok (scratch ++ encode_surrogate n, j)) ∧
    (∀ (slice : List Nat) (index : Nat) (scratch : List Nat) (n1 j1 : Nat),
      index < slice.length → slice.getD index 0 = 0x75 →
      decode_hex_escape slice (index + 1) = .ok (n1, j1) →
      0xD800 ≤ n1 ∧ n1 ≤ 0xDBFF →
      j1 < slice.length → slice.getD j1 0 ≠ 0x5C →
      parse_escape slice false index scratch
        = .ok (scratch ++ encode_surrogate n1, j1)) ∧
    encode_surrogate 0xD800 = [0xED, 0xA0, 0x80] := by
  have hgd : ∀ (slice : List Nat) (p : Nat) (b : Nat)
      (hp : p < slice.length), slice.getD p 0 = b → slice[p] = b := by
    intro slice p b hp hb
    rwa [List.getD_eq_getElem?_getD, List.getElem?_eq_getElem hp,
      Option.getD_some] at hb
  have hgdne : ∀ (slice : List Nat) (p : Nat) (b : Nat)
      (hp : p < slice.length), slice.getD p 0 ≠ b → ¬ slice[p] = b := by
    intro slice p b hp hb hcon
    apply hb
    rw [List.getD_eq_getElem?_getD, List.getElem?_eq_getElem hp,
      Option.getD_some, hcon]
  refine ⟨?_, ?_, ?_, ?_, ?_, ?_, ?_, ?_, by decide⟩
  · intro slice index scratch n1 j1 n2 j2 hidx hu hdec hn1 hj1 hbs hj2 hu2
      hdec2 hn2
    rw [parse_escape_u_eq slice true index scratch hidx hu]
    unfold pe_u_branch
    simp only [hdec]
    rw [if_neg (by omega), dif_pos hn1, dif_pos hj1,
      if_pos (hgd slice j1 0x5C hj1 hbs), dif_pos hj2,
      if_pos (hgd slice (j1 + 1) 0x75 hj2 hu2)]
    simp only [hdec2]
    rw [if_neg (by omega)]
    have hsh : (n1 - 0xD800) <<< 10 ||| (n2 - 0xDC00) < 0x100000 := by
      have h1 : (n1 - 0xD800) <<< 10 < 2 ^ 20 := by
        rw [Nat.shiftLeft_eq]
        omega
      have h2 : n2 - 0xDC00 < 2 ^ 20 := by omega
      exact Nat.or_lt_two_pow h1 h2
    have hchar : charFromU32
        (((n1 - 0xD800) <<< 10 ||| (n2 - 0xDC00)) + 0x10000)
        = some (((n1 - 0xD800) <<< 10 ||| (n2 - 0xDC00)) + 0x10000) := by
      unfold charFromU32
      rw [if_neg (by omega), if_neg (by omega)]
    simp only [hchar]
  · intro slice index scratch n j hidx hu hdec hn
    rw [parse_escape_u_eq slice true index scratch hidx hu]
    unfold pe_u_branch
    simp only [hdec]
    rw [if_pos hn]
    simp
  · intro slice index scratch n1 j1 hidx hu hdec hn1 hj1 hbs
    rw [parse_escape_u_eq slice true index scratch hidx hu]
    unfold pe_u_branch
    simp only [hdec]
    rw [if_neg (by omega), dif_pos hn1, dif_pos hj1,
      if_neg (hgdne slice j1 0x5C hj1 hbs)]
    simp
  · intro slice index scratch n1 j1 hidx hu hdec hn1 hj1 hbs hj2 hu2
    rw [parse_escape_u_eq slice true index scratch hidx hu]
    unfold pe_u_branch
    simp only [hdec]
    rw [if_neg (by omega), dif_pos hn1, dif_pos hj1,
      if_pos (hgd slice j1 0x5C hj1 hbs), dif_pos hj2,
      if_neg (hgdne slice (j1 + 1) 0x75 hj2 hu2)]
    simp
  · intro slice index scratch n1 j1 hidx hu hdec hn1 hj1
    rw [parse_escape_u_eq slice true index scratch hidx hu]
    unfold pe_u_branch
    simp only [hdec]
    rw [if_neg (by omega), dif_pos hn1, dif_neg hj1]
  · intro slice index scratch n1 j1 hidx hu hdec hn1 hj1 hbs hj2
    rw [parse_escape_u_eq slice true index scratch hidx hu]
    unfold pe_u_branch
    simp only [hdec]
    rw [if_neg (by omega), dif_pos hn1, dif_pos hj1,
      if_pos (hgd slice j1 0x5C hj1 hbs), dif_neg hj2]
  · intro slice index scratch n j hidx hu hdec hn
    rw [parse_escape_u_eq slice false index scratch hidx hu]
    unfold pe_u_branch
    simp only [hdec]
    rw [if_pos hn]
    simp
  · intro slice index scratch n1 j1 hidx hu hdec hn1 hj1 hbs
    rw [parse_escape_u_eq slice false index scratch hidx hu]
    unfold pe_u_branch
    simp only [hdec]
    rw [if_neg (by omega), dif_pos hn1, dif_pos hj1,
      if_neg (hgdne slice j1 0x5C hj1 hbs)]
    simp

unseal parse_escape in
/-- C2 counterexample to the claim as frozen: on the input u D 8 0 0
with the slice ending right after the high surrogate, the decoder
(validation on) fails with EofWhileParsingString, not with the
UnexpectedEndOfHexEscape the claim requires for a high surrogate not
followed by a \u escape. -/
theorem claim_C2_counterexample :
    parse_escape [0x75, 0x44, 0x38, 0x30, 0x30] true 0 []
      = .error .EofWhileParsingString ∧
    ErrorCode.EofWhileParsingString ≠ ErrorCode.UnexpectedEndOfHexEscape :=
  ⟨rfl, by decide⟩

/-- C2 witness: the surrogate pair 😀 (input starting at the
u) decodes to the four UTF-8 bytes F0 9F 98 80 of U+1F600. -/
theorem claim_C2_witness :
    parse_escape [0x75, 0x44, 0x38, 0x33, 0x44, 0x5C, 0x75, 0x44, 0x45,
      0x30, 0x30] true 0 [] = .ok ([0xF0, 0x9F, 0x98, 0x80], 11) := by
  have h := claim_C2_amended.1 [0x75, 0x44, 0x38, 0x33, 0x44, 0x5C, 0x75,
      0x44, 0x45, 0x30, 0x30] 0 [] 0xD83D 5 0xDE00 11
    (by decide) (by decide) (by decide) (by decide) (by decide) (by decide)
    (by decide) (by decide) (by decide) (by decide)
  rw [h]
  decide

/-- The Position struct of read.rs. -/
structure Position where
  line : Nat
  column : Nat
deriving DecidableEq, Repr

/-- SliceRead::position_of_index (read.rs lines 326-340): scans the
bytes before index i, incrementing line and resetting column on each
newline and incrementing column on every other byte, starting from
line 1 column 0. -/
def position_of_index (slice : List Nat) (i : Nat) : Position :=
  (slice.take i).foldl
    (fun position ch =>
      if ch = 0x0A then { line := position.line + 1, column := 0 }
      else { position with column := position.column + 1 })
    { line := 1, column := 0 }

/-- The state of LineColIterator (iter.rs): current line, current
column and the byte offset of the start of the current line. -/
structure LineColState where
  line : Nat
  col : Nat
  start_of_line : Nat
deriving DecidableEq, Repr

/-- LineColIterator::next (iter.rs lines 49-64) for one successfully
read byte: a newline bumps start_of_line past the current line,
increments line and resets col; any other byte increments col. -/
def line_col_next (st : LineColState) (b : Nat) : LineColState :=
  if b = 0x0A then
    { start_of_line := st.start_of_line + st.col + 1,
      line := st.line + 1, col := 0 }
  else { st with col := st.col + 1 }

/-- The LineColIterator state after consuming a byte sequence, from the
initial state line 1, col 0, start_of_line 0 of LineColIterator::new. -/
def line_col_consume (bytes : List Nat) : LineColState :=
  bytes.foldl line_col_next { line := 1, col := 0, start_of_line := 0 }

/-- Number of bytes since the most recent newline: the length of the
longest newline-free suffix.  This is the column the claim describes. -/
def bytes_since_newline (l : List Nat) : Nat :=
  (l.reverse.takeWhile (fun b => b ≠ 0x0A)).length

theorem position_fold_spec (l : List Nat) :
    (l.foldl
      (fun position ch =>
        if ch = 0x0A then { line := position.line + 1, column := 0 }
        else { position with column := position.column + 1 })
      { line := 1, column := 0 } : Position)
      = { line := 1 + l.count 0x0A, column := bytes_since_newline l } := by
  induction l using List.reverseRecOn with
  | nil => rfl
  | append_singleton l b ih =>
    rw [List.foldl_append, ih]
    unfold bytes_since_newline
    by_cases hb : b = 0x0A
    · subst hb
      simp [List.count_append]
      omega
    · simp only [List.foldl_cons, List.foldl_nil, if_neg hb]
      simp [List.count_append, List.count_singleton, hb,
        List.takeWhile_cons, Nat.add_comm]

theorem line_col_fold_spec (l : List Nat) :
    (line_col_consume l).line = 1 + l.count 0x0A ∧
    (line_col_consume l).col = bytes_since_newline l := by
  unfold line_col_consume
  induction l using List.reverseRecOn with
  | nil => exact ⟨rfl, rfl⟩
  | append_singleton l b ih =>
    rw [List.foldl_append]
    unfold bytes_since_newline
    by_cases hb : b = 0x0A
    · subst hb
      simp [List.foldl_cons, line_col_next, List.count_append]
      omega
    · simp only [List.foldl_cons, List.foldl_nil, line_col_next, if_neg hb]
      refine ⟨?_, ?_⟩
      · simp [List.count_append, List.count_singleton, hb]
        omega
      · simp [hb, bytes_since_newline, List.takeWhile_cons,
          Nat.add_comm, ih.2]

/-- C6: for every input byte sequence and byte index i (within the
input), the line reported by the slice source's position_of_index is
1 plus the number of newline bytes strictly before i and its column is
the number of bytes consumed since the most recent newline; and the
reader source's LineColIterator reports the same line and column after
consuming the first i bytes. -/
theorem claim_C6 (bytes : List Nat) (i : Nat) (hi : i ≤ bytes.length) :
    (position_of_index bytes i).line = 1 + (bytes.take i).count 0x0A ∧
    (position_of_index bytes i).column
      = bytes_since_newline (bytes.take i) ∧
    (line_col_consume (bytes.take i)).line
      = 1 + (bytes.take i).count 0x0A ∧
    (line_col_consume (bytes.take i)).col
      = bytes_since_newline (bytes.take i) := by
  have h1 := position_fold_spec (bytes.take i)
  have h2 := line_col_fold_spec (bytes.take i)
  unfold position_of_index
  rw [h1]
  exact ⟨rfl, rfl, h2.1, h2.2⟩

theorem claim_C6_witness :
    (position_of_index [0x7B, 0x0A, 0x20, 0x78] 3).line
      = 1 + ([0x7B, 0x0A, 0x20, 0x78].take 3).count 0x0A ∧
    (position_of_index [0x7B, 0x0A, 0x20, 0x78] 3).column
      = bytes_since_newline ([0x7B, 0x0A, 0x20, 0x78].take 3) ∧
    (line_col_consume ([0x7B, 0x0A, 0x20, 0x78].take 3)).line
      = 1 + ([0x7B, 0x0A, 0x20, 0x78].take 3).count 0x0A ∧
    (line_col_consume ([0x7B, 0x0A, 0x20, 0x78].take 3)).col
      = bytes_since_newline ([0x7B, 0x0A, 0x20, 0x78].take 3) :=
  claim_C6 [0x7B, 0x0A, 0x20, 0x78] 3 (by decide)

/-- Decimal digits of a natural number, least significant first.  Models
the external itoa crate used by the integer write_* defaults. -/
def nat_decimal_rev (n : Nat) : List Nat :=
  if h : n < 10 then [n] else n % 10 :: nat_decimal_rev (n / 10)
termination_by n
decreasing_by omega

/-- ASCII decimal representation of a natural number (itoa). -/
def itoa_nat (n : Nat) : List Nat :=
  (nat_decimal_rev n).reverse.map (fun d => d + 0x30)

/-- ASCII decimal representation of a signed integer (itoa): a minus
sign followed by the digits of the absolute value. -/
def itoa_int : Int → List Nat
  | .ofNat n => itoa_nat n
  | .negSucc m => 0x2D :: itoa_nat (m + 1)

/-- Shallow model of an f64 / f32 value: what the serializer inspects
is the classification, and what it prints for finite values is the
output of the external ryu crate, carried here as the bytes of the
finite payload. -/
inductive Fp where
  | nan
  | infinite (neg : Bool)
  | finite (repr : List Nat)

/-- core::num::FpCategory as matched by serialize_f32 / serialize_f64.
A finite Fp is classified Normal; the source treats Zero, Subnormal and
Normal identically (they all fall to the catch-all write arm). -/
inductive FpCategory where
  | Nan
  | Infinite
  | Zero
  | Subnormal
  | Normal
deriving DecidableEq

/-- f64::classify on the Fp model. -/
def Fp.classify : Fp → FpCategory
  | .nan => .Nan
  | .infinite _ => .Infinite
  | .finite _ => .Normal

/-- Models ryu::Buffer::format_finite: the finite payload carries the
shortest-decimal bytes ryu would print; the serializer never calls it
on non-finite values, where the result is modelled as empty. -/
def ryu_format_finite : Fp → List Nat
  | .finite r => r
  | _ => []

/-- The mutable state of PrettyFormatter (ser.rs lines 1432-1436):
current_indent and has_value.  CompactFormatter carries no state and
ignores this. -/
structure FmtState where
  current_indent : Nat
  has_value : Bool
deriving DecidableEq, Repr

/-- The CharEscape enum of ser.rs (lines 1038-1058). -/
inductive CharEscape where
  | Quote
  | ReverseSolidus
  | Solidus
  | Backspace
  | FormFeed
  | LineFeed
  | CarriageReturn
  | Tab
  | AsciiControl (byte : Nat)
deriving DecidableEq, Repr

/-- The escape class constants of ser.rs (lines 1603-1611): the byte of
the short escape letter, QU and BS for quote and backslash, UU for the
generic \u00XX control escape, and 0 for no escaping. -/
def BB : Nat := 0x62
def TT : Nat := 0x74
def NN : Nat := 0x6E
def FF : Nat := 0x66
def RR : Nat := 0x72
def QU : Nat := 0x22
def BS : Nat := 0x5C
def UU : Nat := 0x75

/-- The 256-entry ESCAPE table of ser.rs (lines 1616-1634): rows 0 and
1 hold UU except for the five shorthand escapes BB TT NN FF RR at 0x08,
0x09, 0x0A, 0x0C, 0x0D; QU at 0x22; BS at 0x5C; 0 everywhere else. -/
def ESCAPE_ser (b : Nat) : Nat :=
  if b = 0x08 then BB
  else if b = 0x09 then TT
  else if b = 0x0A then NN
  else if b = 0x0C then FF
  else if b = 0x0D then RR
  else if b < 0x20 then UU
  else if b = 0x22 then QU
  else if b = 0x5C then BS
  else 0

/-- CharEscape::from_escape_table (ser.rs lines 1062-1074).  The final
arm is unreachable! in the source (the table never yields another
nonzero class); it is mapped to AsciiControl here and never reached
with a nonzero class other than the listed ones. -/
def from_escape_table (escape : Nat) (byte : Nat) : CharEscape :=
  if escape = BB then .Backspace
  else if escape = TT then .Tab
  else if escape = NN then .LineFeed
  else if escape = FF then .FormFeed
  else if escape = RR then .CarriageReturn
  else if escape = QU then .Quote
  else if escape = BS then .ReverseSolidus
  else .AsciiControl byte

/-- The HEX_DIGITS table of write_char_escape: "0123456789abcdef". -/
def HEX_DIGITS : List Nat :=
  [0x30, 0x31, 0x32, 0x33, 0x34, 0x35, 0x36, 0x37, 0x38, 0x39,
   0x61, 0x62, 0x63, 0x64, 0x65, 0x66]

/-- The bytes written by the default Formatter::write_char_escape
(ser.rs lines 1276-1306). -/
def char_escape_bytes : CharEscape → List Nat
  | .Quote => [0x5C, 0x22]
  | .ReverseSolidus => [0x5C, 0x5C]
  | .Solidus => [0x5C, 0x2F]
  | .Backspace => [0x5C, 0x62]
  | .FormFeed => [0x5C, 0x66]
  | .LineFeed => [0x5C, 0x6E]
  | .CarriageReturn => [0x5C, 0x72]
  | .Tab => [0x5C, 0x74]
  | .AsciiControl byte =>
    [0x5C, 0x75, 0x30, 0x30, HEX_DIGITS.getD (byte >>> 4) 0,
      HEX_DIGITS.getD (byte &&& 0xF) 0]

/-- Default Formatter methods (the trait defaults of ser.rs): each one
is a function from the formatter state to the new state and the bytes
written to the sink. -/
def default_write_null : FmtState → FmtState × List Nat :=
  fun st => (st, [0x6E, 0x75, 0x6C, 0x6C])

def default_write_bool : Bool → FmtState → FmtState × List Nat :=
  fun value st =>
    (st, if value then [0x74, 0x72, 0x75, 0x65]
      else [0x66, 0x61, 0x6C, 0x73, 0x65])

def default_write_int : Int → FmtState → FmtState × List Nat :=
  fun value st => (st, itoa_int value)

def default_write_nat : Nat → FmtState → FmtState × List Nat :=
  fun value st => (st, itoa_nat value)

def default_write_f : Fp → FmtState → FmtState × List Nat :=
  fun value st => (st, ryu_format_finite value)

def default_begin_string : FmtState → FmtState × List Nat :=
  fun st => (st, [0x22])

def default_end_string : FmtState → FmtState × List Nat :=
  fun st => (st, [0x22])

def default_write_string_fragment : List Nat → FmtState → FmtState × List Nat :=
  fun fragment st => (st, fragment)

def default_write_char_escape : CharEscape → FmtState → FmtState × List Nat :=
  fun ce st => (st, char_escape_bytes ce)

def default_begin_array : FmtState → FmtState × List Nat :=
  fun st => (st, [0x5B])

def default_end_array : FmtState → FmtState × List Nat :=
  fun st => (st, [0x5D])

def default_begin_array_value : Bool → FmtState → FmtState × List Nat :=
  fun first st => (st, if first then [] else [0x2C])

def default_end_array_value : FmtState → FmtState × List Nat :=
  fun st => (st, [])

def default_begin_object : FmtState → FmtState × List Nat :=
  fun st => (st, [0x7B])

def default_end_object : FmtState → FmtState × List Nat :=
  fun st => (st, [0x7D])

def default_begin_object_key : Bool → FmtState → FmtState × List Nat :=
  fun first st => (st, if first then [] else [0x2C])

def default_end_object_key : FmtState → FmtState × List Nat :=
  fun st => (st, [])

def default_begin_object_value : FmtState → FmtState × List Nat :=
  fun st => (st, [0x3A])

def default_end_object_value : FmtState → FmtState × List Nat :=
  fun st => (st, [])

/-- The Formatter trait of ser.rs as a record of its methods, each
defaulting to the trait's default body.  The writer (a growing Vec) is
modelled by returning the written bytes; state is threaded for the
pretty formatter. -/
structure Formatter where
  write_null : FmtState → FmtState × List Nat := default_write_null
  write_bool : Bool → FmtState → FmtState × List Nat := default_write_bool
  write_i8 : Int → FmtState → FmtState × List Nat := default_write_int
  write_i16 : Int → FmtState → FmtState × List Nat := default_write_int
  write_i32 : Int → FmtState → FmtState × List Nat := default_write_int
  write_i64 : Int → FmtState → FmtState × List Nat := default_write_int
  write_i128 : Int → FmtState → FmtState × List Nat := default_write_int
  write_u8 : Nat → FmtState → FmtState × List Nat := default_write_nat
  write_u16 : Nat → FmtState → FmtState × List Nat := default_write_nat
  write_u32 : Nat → FmtState → FmtState × List Nat := default_write_nat
  write_u64 : Nat → FmtState → FmtState × List Nat := default_write_nat
  write_u128 : Nat → FmtState → FmtState × List Nat := default_write_nat
  write_f32 : Fp → FmtState → FmtState × List Nat := default_write_f
  write_f64 : Fp → FmtState → FmtState × List Nat := default_write_f
  begin_string : FmtState → FmtState × List Nat := default_begin_string
  end_string : FmtState → FmtState × List Nat := default_end_string
  write_string_fragment : List Nat → FmtState → FmtState × List Nat :=
    default_write_string_fragment
  write_char_escape : CharEscape → FmtState → FmtState × List Nat :=
    default_write_char_escape
  begin_array : FmtState → FmtState × List Nat := default_begin_array
  end_array : FmtState → FmtState × List Nat := default_end_array
  begin_array_value : Bool → FmtState → FmtState × List Nat :=
    default_begin_array_value
  end_array_value : FmtState → FmtState × List Nat := default_end_array_value
  begin_object : FmtState → FmtState × List Nat := default_begin_object
  end_object : FmtState → FmtState × List Nat := default_end_object
  begin_object_key : Bool → FmtState → FmtState × List Nat :=
    default_begin_object_key
  end_object_key : FmtState → FmtState × List Nat := default_end_object_key
  begin_object_value : FmtState → FmtState × List Nat :=
    default_begin_object_value
  end_object_value : FmtState → FmtState × List Nat :=
    default_end_object_value

/-- CompactFormatter (ser.rs line 1428): all trait defaults. -/
def compact_formatter : Formatter := {}

/-- fn indent (ser.rs lines 1740-1749): writes the indent byte slice n
times. -/
def indent_by (n : Nat) (s : List Nat) : List Nat :=
  (List.replicate n s).flatten

/-- PrettyFormatter::with_indent (ser.rs lines 1446-1555): overrides
the eight structural callbacks, tracking current_indent and has_value
in the formatter state. -/
def pretty_formatter (ind : List Nat) : Formatter :=
  { begin_array := fun st =>
      ({ current_indent := st.current_indent + 1, has_value := false },
        [0x5B])
    end_array := fun st =>
      ({ st with current_indent := st.current_indent - 1 },
        (if st.has_value then
          [0x0A] ++ indent_by (st.current_indent - 1) ind
        else []) ++ [0x5D])
    begin_array_value := fun first st =>
      (st, (if first then [0x0A] else [0x2C, 0x0A])
        ++ indent_by st.current_indent ind)
    end_array_value := fun st => ({ st with has_value := true }, [])
    begin_object := fun st =>
      ({ current_indent := st.current_indent + 1, has_value := false },
        [0x7B])
    end_object := fun st =>
      ({ st with current_indent := st.current_indent - 1 },
        (if st.has_value then
          [0x0A] ++ indent_by (st.current_indent - 1) ind
        else []) ++ [0x7D])
    begin_object_key := fun first st =>
      (st, (if first then [0x0A] else [0x2C, 0x0A])
        ++ indent_by st.current_indent ind)
    begin_object_value := fun st => (st, [0x3A, 0x20])
    end_object_value := fun st => ({ st with has_value := true }, []) }

/-- PrettyFormatter::new (ser.rs lines 1441-1443): two spaces. -/
def pretty_formatter_new : Formatter := pretty_formatter [0x20, 0x20]

/-- The loop of format_escaped_str_contents (ser.rs lines 1576-1594):
iterates i over the bytes of the string; start is the beginning of the
current unescaped run.  An unescaped byte just advances; at an escaped
byte the pending fragment value[start..i] is written (when nonempty),
then the escape, and start moves past the byte.  After the loop the
final fragment is written unless start reached the end (lines
1596-1600). -/
def fesc_loop (F : Formatter) (value : List Nat) (start i : Nat)
    (st : FmtState) : FmtState × List Nat :=
  if h : i < value.length then
    let escape := ESCAPE_ser value[i]
    if escape = 0 then fesc_loop F value start (i + 1) st
    else
      let frag :=
        if start < i then F.write_string_fragment (subslice value start i) st
        else (st, [])
      let esc := F.write_char_escape (from_escape_table escape value[i])
        frag.1
      let rest := fesc_loop F value (i + 1) (i + 1) esc.1
      (rest.1, frag.2 ++ esc.2 ++ rest.2)
  else
    if start = value.length then (st, [])
    else F.write_string_fragment (subslice value start value.length) st
termination_by value.length - i

/-- format_escaped_str_contents (ser.rs lines 1567-1601). -/
def format_escaped_str_contents (F : Formatter) (value : List Nat)
    (st : FmtState) : FmtState × List Nat :=
  fesc_loop F value 0 0 st

/-- format_escaped_str (ser.rs lines 1557-1565): quote, contents,
quote. -/
def format_escaped_str (F : Formatter) (value : List Nat)
    (st : FmtState) : FmtState × List Nat :=
  let b := F.begin_string st
  let c := format_escaped_str_contents F value b.1
  let e := F.end_string c.1
  (e.1, b.2 ++ c.2 ++ e.2)

/-- The escaping of a single byte as the claim states it: the five
shorthand escapes, escaped quote and backslash, \u00XX with lowercase
hex for the other bytes below 0x20, and every other byte (including the
solidus) unchanged.  This is the specification-side description that
claim C3 compares against the table-driven code. -/
def escape_byte_spec (b : Nat) : List Nat :=
  if b = 0x08 then [0x5C, 0x62]
  else if b = 0x09 then [0x5C, 0x74]
  else if b = 0x0A then [0x5C, 0x6E]
  else if b = 0x0C then [0x5C, 0x66]
  else if b = 0x0D then [0x5C, 0x72]
  else if b = 0x22 then [0x5C, 0x22]
  else if b = 0x5C then [0x5C, 0x5C]
  else if b < 0x20 then
    [0x5C, 0x75, 0x30, 0x30, HEX_DIGITS.getD (b >>> 4) 0,
      HEX_DIGITS.getD (b &&& 0xF) 0]
  else [b]

set_option maxRecDepth 4096 in
theorem escape_byte_code_spec (b : Nat) :
    (if ESCAPE_ser b = 0 then [b]
      else char_escape_bytes (from_escape_table (ESCAPE_ser b) b))
      = escape_byte_spec b := by
  by_cases hb : b < 256
  · revert hb
    revert b
    decide
  · have h0 : ESCAPE_ser b = 0 := by
      unfold ESCAPE_ser
      repeat rw [if_neg (by omega)]
    rw [if_pos h0]
    unfold escape_byte_spec
    repeat rw [if_neg (by omega)]

theorem subslice_snoc {value : List Nat} {start i : Nat}
    (h1 : start ≤ i) (h2 : i < value.length) :
    subslice value start (i + 1) = subslice value start i ++ [value.getD i 0] := by
  unfold subslice
  have h3 : i + 1 - start = (i - start) + 1 := by omega
  rw [h3, List.take_succ]
  congr 1
  rw [List.getElem?_drop]
  have h4 : start + (i - start) = i := by omega
  rw [h4, List.getElem?_eq_getElem h2]
  rw [List.getD_eq_getElem?_getD, List.getElem?_eq_getElem h2]
  rfl

theorem subslice_of_ge_length {value : List Nat} {start i : Nat}
    (h : value.length ≤ i) :
    subslice value start i = subslice value start value.length := by
  unfold subslice
  rcases Nat.le_total start value.length with hs | hs
  · have e1 : (value.drop start).take (i - start) = value.drop start :=
      List.take_of_length_le (by rw [List.length_drop]; omega)
    have e2 : (value.drop start).take (value.length - start)
        = value.drop start :=
      List.take_of_length_le (by rw [List.length_drop])
    rw [e1, e2]
  · rw [List.drop_eq_nil_of_le (by omega)]
    simp

theorem fesc_loop_spec (F : Formatter)
    (hfrag : F.write_string_fragment = default_write_string_fragment)
    (hesc : F.write_char_escape = default_write_char_escape)
    (value : List Nat) :
    ∀ k start i st, value.length - i ≤ k → start ≤ i →
      fesc_loop F value start i st
        = (st, subslice value start i
            ++ (value.drop i).flatMap escape_byte_spec) := by
  intro k
  induction k with
  | zero =>
    intro start i st hk hsi
    unfold fesc_loop
    rw [dif_neg (by omega)]
    rw [List.drop_eq_nil_of_le (by omega), List.flatMap_nil,
      List.append_nil]
    by_cases hse : start = value.length
    · rw [if_pos hse]
      unfold subslice
      rw [hse, List.drop_eq_nil_of_le (by omega)]
      simp
    · rw [if_neg hse, hfrag]
      unfold default_write_string_fragment
      exact congrArg (fun z => (st, z)) (subslice_of_ge_length (by omega)).symm
  | succ k ih =>
    intro start i st hk hsi
    unfold fesc_loop
    by_cases hi : i < value.length
    case neg =>
      rw [dif_neg hi]
      rw [List.drop_eq_nil_of_le (by omega), List.flatMap_nil,
        List.append_nil]
      by_cases hse : start = value.length
      · rw [if_pos hse]
        unfold subslice
        rw [hse, List.drop_eq_nil_of_le (by omega)]
        simp
      · rw [if_neg hse, hfrag]
        unfold default_write_string_fragment
        exact congrArg (fun z => (st, z))
          (subslice_of_ge_length (by omega)).symm
    rw [dif_pos hi]
    have hgd : value.getD i 0 = value[i] := by
      rw [List.getD_eq_getElem?_getD, List.getElem?_eq_getElem hi]
      rfl
    rw [List.drop_eq_getElem_cons hi, List.flatMap_cons]
    by_cases h0 : ESCAPE_ser value[i] = 0
    · simp only [h0, if_pos rfl]
      rw [ih start (i + 1) st (by omega) (by omega)]
      have hspec : escape_byte_spec value[i] = [value[i]] := by
        have := escape_byte_code_spec value[i]
        rw [if_pos h0] at this
        exact this.symm
      rw [hspec]
      rw [subslice_snoc hsi hi, hgd]
      simp
    · simp only [if_neg h0]
      rw [ih (i + 1) (i + 1) _ (by omega) (by omega)]
      have hsub : subslice value (i + 1) (i + 1) = [] := by
        unfold subslice
        simp
      rw [hsub, List.nil_append]
      have hspec : escape_byte_spec value[i]
          = char_escape_bytes (from_escape_table (ESCAPE_ser value[i])
            value[i]) := by
        have := escape_byte_code_spec value[i]
        rw [if_neg h0] at this
        exact this.symm
      by_cases hsi2 : start < i
      · rw [if_pos hsi2, hfrag, hesc]
        unfold default_write_string_fragment default_write_char_escape
        simp [hspec]
      · rw [if_neg hsi2, hesc]
        unfold default_write_char_escape
        have hstart : start = i := by omega
        subst hstart
        have hsub2 : subslice value start start = [] := by
          unfold subslice
          simp
        rw [hsub2]
        simp [hspec]

set_option maxRecDepth 4096 in
/-- C3: exactly the bytes 0x00-0x1F, 0x22 and 0x5C are escaped by the
emitter table, and string-content emission rewrites every byte by: the
shorthand escapes \b \t \n \f \r for 08 09 0A 0C 0D, escaped quote and
backslash for 22 and 5C, \u00XX with lowercase hex for every other
byte below 0x20, and the byte itself (the solidus included)
otherwise. -/
theorem claim_C3 :
    (∀ b : Nat, ESCAPE_ser b ≠ 0 ↔ (b < 0x20 ∨ b = 0x22 ∨ b = 0x5C)) ∧
    (∀ (value : List Nat) (st : FmtState),
      format_escaped_str_contents compact_formatter value st
        = (st, value.flatMap escape_byte_spec)) ∧
    (∀ (value : List Nat) (st : FmtState),
      format_escaped_str compact_formatter value st
        = (st, [0x22] ++ value.flatMap escape_byte_spec ++ [0x22])) := by
  have hc : ∀ (value : List Nat) (st : FmtState),
      format_escaped_str_contents compact_formatter value st
        = (st, value.flatMap escape_byte_spec) := by
    intro value st
    unfold format_escaped_str_contents
    rw [fesc_loop_spec compact_formatter rfl rfl value value.length 0 0 st
      (by omega) (by omega)]
    unfold subslice
    simp
  refine ⟨?_, hc, ?_⟩
  · intro b
    by_cases hb : b < 256
    · revert hb
      revert b
      decide
    · have h0 : ESCAPE_ser b = 0 := by
        unfold ESCAPE_ser
        repeat rw [if_neg (by omega)]
      rw [h0]
      simp
      omega
  · intro value st
    simp only [format_escaped_str]
    rw [hc]
    rfl

/-- The serde data model: the shapes a Serialize implementation can
hand to the serializer of ser.rs, one constructor per serialize_*
entry point of the reflection framework (an external collaborator of
the library).  Strings carry their UTF-8 bytes, chars their scalar
value, floats the Fp model, integers unbounded Int / Nat standing for
the machine values. -/
inductive SValue where
  | bool (b : Bool)
  | i8 (v : Int)
  | i16 (v : Int)
  | i32 (v : Int)
  | i64 (v : Int)
  | i128 (v : Int)
  | u8 (v : Nat)
  | u16 (v : Nat)
  | u32 (v : Nat)
  | u64 (v : Nat)
  | u128 (v : Nat)
  | f32 (v : Fp)
  | f64 (v : Fp)
  | char (c : Nat)
  | str (s : List Nat)
  | bytes (b : List Nat)
  | unit
  | unitStruct (name : List Nat)
  | unitVariant (name variant : List Nat)
  | newtypeStruct (name : List Nat) (value : SValue)
  | newtypeVariant (name variant : List Nat) (value : SValue)
  | none
  | some (value : SValue)
  | seq (elems : List SValue)
  | tuple (elems : List SValue)
  | tupleStruct (name : List Nat) (elems : List SValue)
  | tupleVariant (name variant : List Nat) (elems : List SValue)
  | map (entries : List (SValue × SValue))
  | struct (name : List Nat) (fields : List (List Nat × SValue))
  | structVariant (name variant : List Nat)
      (fields : List (List Nat × SValue))

/-- MapKeySerializer (ser.rs lines 715-1035): strings, unit variants,
integers (inside quotes), chars (as one-character strings, through
char::to_string) and newtype wrappers are accepted; everything else
fails with the KeyMustBeAString error built by key_must_be_a_string
(Error::syntax(KeyMustBeAString, 0, 0)). -/
def map_key_serialize (F : Formatter) : SValue → FmtState →
    Except ErrorCode (FmtState × List Nat)
  | .str s, st => .ok (format_escaped_str F s st)
  | .unitVariant _ variant, st => .ok (format_escaped_str F variant st)
  | .newtypeStruct _ value, st => map_key_serialize F value st
  | .i8 v, st =>
    let bs := F.begin_string st
    let wv := F.write_i8 v bs.1
    let es := F.end_string wv.1
    .ok (es.1, bs.2 ++ wv.2 ++ es.2)
  | .i16 v, st =>
    let bs := F.begin_string st
    let wv := F.write_i16 v bs.1
    let es := F.end_string wv.1
    .ok (es.1, bs.2 ++ wv.2 ++ es.2)
  | .i32 v, st =>
    let bs := F.begin_string st
    let wv := F.write_i32 v bs.1
    let es := F.end_string wv.1
    .ok (es.1, bs.2 ++ wv.2 ++ es.2)
  | .i64 v, st =>
    let bs := F.begin_string st
    let wv := F.write_i64 v bs.1
    let es := F.end_string wv.1
    .ok (es.1, bs.2 ++ wv.2 ++ es.2)
  | .i128 v, st =>
    let bs := F.begin_string st
    let wv := F.write_i128 v bs.1
    let es := F.end_string wv.1
    .ok (es.1, bs.2 ++ wv.2 ++ es.2)
  | .u8 v, st =>
    let bs := F.begin_string st
    let wv := F.write_u8 v bs.1
    let es := F.end_string wv.1
    .ok (es.1, bs.2 ++ wv.2 ++ es.2)
  | .u16 v, st =>
    let bs := F.begin_string st
    let wv := F.write_u16 v bs.1
    let es := F.end_string wv.1
    .ok (es.1, bs.2 ++ wv.2 ++ es.2)
  | .u32 v, st =>
    let bs := F.begin_string st
    let wv := F.write_u32 v bs.1
    let es := F.end_string wv.1
    .ok (es.1, bs.2 ++ wv.2 ++ es.2)
  | .u64 v, st =>
    let bs := F.begin_string st
    let wv := F.write_u64 v bs.1
    let es := F.end_string wv.1
    .ok (es.1, bs.2 ++ wv.2 ++ es.2)
  | .u128 v, st =>
    let bs := F.begin_string st
    let wv := F.write_u128 v bs.1
    let es := F.end_string wv.1
    .ok (es.1, bs.2 ++ wv.2 ++ es.2)
  | .char c, st => .ok (format_escaped_str F (encodeUtf8 c) st)
  | .bool _, st => .error .KeyMustBeAString
  | .f32 _, st => .error .KeyMustBeAString
  | .f64 _, st => .error .KeyMustBeAString
  | .bytes _, st => .error .KeyMustBeAString
  | .unit, st => .error .KeyMustBeAString
  | .unitStruct _, st => .error .KeyMustBeAString
  | .newtypeVariant _ _ _, st => .error .KeyMustBeAString
  | .none, st => .error .KeyMustBeAString
  | .some _, st => .error .KeyMustBeAString
  | .seq _, st => .error .KeyMustBeAString
  | .tuple _, st => .error .KeyMustBeAString
  | .tupleStruct _ _, st => .error .KeyMustBeAString
  | .tupleVariant _ _ _, st => .error .KeyMustBeAString
  | .map _, st => .error .KeyMustBeAString
  | .struct _ _, st => .error .KeyMustBeAString
  | .structVariant _ _ _, st => .error .KeyMustBeAString

/-- The elements of serialize_bytes: each byte through serialize_u8. -/
def ser_u8_elements (F : Formatter) : List Nat → Bool → FmtState →
    FmtState × List Nat
  | [], _, st => (st, [])
  | x :: rest, first, st =>
    let bv := F.begin_array_value first st
    let wv := F.write_u8 x bv.1
    let ev := F.end_array_value wv.1
    let more := ser_u8_elements F rest false ev.1
    (more.1, bv.2 ++ wv.2 ++ ev.2 ++ more.2)

/-- serialize_bytes (ser.rs lines 192-199): a sequence of the u8
elements. -/
def ser_u8_seq (F : Formatter) (b : List Nat) (st : FmtState) :
    Except ErrorCode (FmtState × List Nat) :=
  let ba := F.begin_array st
  if b.length = 0 then
    let ea := F.end_array ba.1
    .ok (ea.1, ba.2 ++ ea.2)
  else
    let el := ser_u8_elements F b true ba.1
    let ea := F.end_array el.1
    .ok (ea.1, ba.2 ++ el.2 ++ ea.2)

mutual

/-- The serializer of ser.rs driven over the serde data model: each
SValue constructor triggers the corresponding serialize_* method of
impl ser::Serializer (ser.rs lines 60-456), which calls the formatter
hooks in order and threads the Compound state machine
(Empty / First / Rest) for sequences and maps.  The calling sequence of
the reflection framework (an external collaborator) is the standard
one: sequences feed their elements then end, maps alternate
serialize_key / serialize_value, structs use serialize_entry with their
static string keys. -/
def ser_value (F : Formatter) : SValue → FmtState →
    Except ErrorCode (FmtState × List Nat)
  | .bool b, st => .ok (F.write_bool b st)
  | .i8 v, st => .ok (F.write_i8 v st)
  | .i16 v, st => .ok (F.write_i16 v st)
  | .i32 v, st => .ok (F.write_i32 v st)
  | .i64 v, st => .ok (F.write_i64 v st)
  | .i128 v, st => .ok (F.write_i128 v st)
  | .u8 v, st => .ok (F.write_u8 v st)
  | .u16 v, st => .ok (F.write_u16 v st)
  | .u32 v, st => .ok (F.write_u32 v st)
  | .u64 v, st => .ok (F.write_u64 v st)
  | .u128 v, st => .ok (F.write_u128 v st)
  | .f32 v, st =>
    match v.classify with
    | .Nan => .ok (F.write_null st)
    | .Infinite => .ok (F.write_null st)
    | _ => .ok (F.write_f32 v st)
  | .f64 v, st =>
    match v.classify with
    | .Nan => .ok (F.write_null st)
    | .Infinite => .ok (F.write_null st)
    | _ => .ok (F.write_f64 v st)
  | .char c, st => .ok (format_escaped_str F (encodeUtf8 c) st)
  | .str s, st => .ok (format_escaped_str F s st)
  | .bytes b, st => ser_u8_seq F b st
  | .unit, st => .ok (F.write_null st)
  | .unitStruct _, st => .ok (F.write_null st)
  | .unitVariant _ variant, st => .ok (format_escaped_str F variant st)
  | .newtypeStruct _ value, st => ser_value F value st
  | .newtypeVariant _ variant value, st =>
    let bo := F.begin_object st
    let bk := F.begin_object_key true bo.1
    let kv := format_escaped_str F variant bk.1
    let ek := F.end_object_key kv.1
    let bv := F.begin_object_value ek.1
    match ser_value F value bv.1 with
    | .error e => .error e
    | .ok (st2, out2) =>
      let ev := F.end_object_value st2
      let eo := F.end_object ev.1
      .ok (eo.1, bo.2 ++ bk.2 ++ kv.2 ++ ek.2 ++ bv.2 ++ out2
        ++ ev.2 ++ eo.2)
  | .none, st => .ok (F.write_null st)
  | .some value, st => ser_value F value st
  | .seq xs, st => ser_seq F xs st
  | .tuple xs, st => ser_seq F xs st
  | .tupleStruct _ xs, st => ser_seq F xs st
  | .tupleVariant _ variant xs, st =>
    let bo := F.begin_object st
    let bk := F.begin_object_key true bo.1
    let kv := format_escaped_str F variant bk.1
    let ek := F.end_object_key kv.1
    let bv := F.begin_object_value ek.1
    match ser_seq F xs bv.1 with
    | .error e => .error e
    | .ok (st2, out2) =>
      let ev := F.end_object_value st2
      let eo := F.end_object ev.1
      .ok (eo.1, bo.2 ++ bk.2 ++ kv.2 ++ ek.2 ++ bv.2 ++ out2
        ++ ev.2 ++ eo.2)
  | .map entries, st => ser_map F entries st
  | .struct _ fields, st => ser_struct F fields st
  | .structVariant _ variant fields, st =>
    let bo := F.begin_object st
    let bk := F.begin_object_key true bo.1
    let kv := format_escaped_str F variant bk.1
    let ek := F.end_object_key kv.1
    let bv := F.begin_object_value ek.1
    match ser_struct F fields bv.1 with
    | .error e => .error e
    | .ok (st2, out2) =>
      let ev := F.end_object_value st2
      let eo := F.end_object ev.1
      .ok (eo.1, bo.2 ++ bk.2 ++ kv.2 ++ ek.2 ++ bv.2 ++ out2
        ++ ev.2 ++ eo.2)

/-- serialize_seq(Some(len)) + the elements + SerializeSeq::end
(ser.rs lines 284-304 and 476-513): an empty sequence closes the array
immediately and end() does nothing more (State::Empty); otherwise the
elements are emitted and end() closes the array. -/
def ser_seq (F : Formatter) (xs : List SValue) (st : FmtState) :
    Except ErrorCode (FmtState × List Nat) :=
  let ba := F.begin_array st
  if xs.length = 0 then
    let ea := F.end_array ba.1
    .ok (ea.1, ba.2 ++ ea.2)
  else
    match ser_seq_elements F xs true ba.1 with
    | .error e => .error e
    | .ok (st2, out2) =>
      let ea := F.end_array st2
      .ok (ea.1, ba.2 ++ out2 ++ ea.2)

/-- SerializeSeq::serialize_element for each element (ser.rs lines
485-502): begin_array_value with the First / Rest flag, the element,
end_array_value. -/
def ser_seq_elements (F : Formatter) : List SValue → Bool → FmtState →
    Except ErrorCode (FmtState × List Nat)
  | [], _, st => .ok (st, [])
  | x :: rest, first, st =>
    let bv := F.begin_array_value first st
    match ser_value F x bv.1 with
    | .error e => .error e
    | .ok (st2, out2) =>
      let ev := F.end_array_value st2
      match ser_seq_elements F rest false ev.1 with
      | .error e => .error e
      | .ok (st3, out3) => .ok (st3, bv.2 ++ out2 ++ ev.2 ++ out3)

/-- serialize_map(Some(len)) + the entries + SerializeMap::end (ser.rs
lines 349-369 and 593-651). -/
def ser_map (F : Formatter) (entries : List (SValue × SValue))
    (st : FmtState) : Except ErrorCode (FmtState × List Nat) :=
  let bo := F.begin_object st
  if entries.length = 0 then
    let eo := F.end_object bo.1
    .ok (eo.1, bo.2 ++ eo.2)
  else
    match ser_map_entries F entries true bo.1 with
    | .error e => .error e
    | .ok (st2, out2) =>
      let eo := F.end_object st2
      .ok (eo.1, bo.2 ++ out2 ++ eo.2)

/-- SerializeMap::serialize_key / serialize_value for each entry
(ser.rs lines 601-640): begin_object_key with the First / Rest flag,
the key through MapKeySerializer, end_object_key, begin_object_value,
the value, end_object_value. -/
def ser_map_entries (F : Formatter) :
    List (SValue × SValue) → Bool → FmtState →
    Except ErrorCode (FmtState × List Nat)
  | [], _, st => .ok (st, [])
  | (k, v) :: rest, first, st =>
    let bk := F.begin_object_key first st
    match map_key_serialize F k bk.1 with
    | .error e => .error e
    | .ok (st2, out2) =>
      let ek := F.end_object_key st2
      let bv := F.begin_object_value ek.1
      match ser_value F v bv.1 with
      | .error e => .error e
      | .ok (st3, out3) =>
        let ev := F.end_object_value st3
        match ser_map_entries F rest false ev.1 with
        | .error e => .error e
        | .ok (st4, out4) =>
          .ok (st4, bk.2 ++ out2 ++ ek.2 ++ bv.2 ++ out3 ++ ev.2 ++ out4)

/-- serialize_struct = serialize_map(Some(len)) with the static string
field names as keys (ser.rs lines 372-376, 653-677); a string key
through MapKeySerializer is ser.serialize_str, i.e.
format_escaped_str. -/
def ser_struct (F : Formatter) (fields : List (List Nat × SValue))
    (st : FmtState) : Except ErrorCode (FmtState × List Nat) :=
  let bo := F.begin_object st
  if fields.length = 0 then
    let eo := F.end_object bo.1
    .ok (eo.1, bo.2 ++ eo.2)
  else
    match ser_struct_fields F fields true bo.1 with
    | .error e => .error e
    | .ok (st2, out2) =>
      let eo := F.end_object st2
      .ok (eo.1, bo.2 ++ out2 ++ eo.2)

/-- serialize_entry for each struct field. -/
def ser_struct_fields (F : Formatter) :
    List (List Nat × SValue) → Bool → FmtState →
    Except ErrorCode (FmtState × List Nat)
  | [], _, st => .ok (st, [])
  | (k, v) :: rest, first, st =>
    let bk := F.begin_object_key first st
    let kv := format_escaped_str F k bk.1
    let ek := F.end_object_key kv.1
    let bv := F.begin_object_value ek.1
    match ser_value F v bv.1 with
    | .error e => .error e
    | .ok (st3, out3) =>
      let ev := F.end_object_value st3
      match ser_struct_fields F rest false ev.1 with
      | .error e => .error e
      | .ok (st4, out4) =>
        .ok (st4, bk.2 ++ kv.2 ++ ek.2 ++ bv.2 ++ out3 ++ ev.2 ++ out4)

end

/-- to_vec (ser.rs lines 1677-1684): serialize with CompactFormatter
into a byte vector; the formatter state starts at indent 0 with no
value, as Serializer::new / PrettyFormatter::with_indent set up. -/
def to_vec (v : SValue) : Except ErrorCode (List Nat) :=
  match ser_value compact_formatter v { current_indent := 0, has_value := false } with
  | .error e => .error e
  | .ok (_, out) => .ok out

/-- to_vec_pretty (ser.rs lines 1693-1700): serialize with the default
PrettyFormatter. -/
def to_vec_pretty (v : SValue) : Except ErrorCode (List Nat) :=
  match ser_value pretty_formatter_new v
      { current_indent := 0, has_value := false } with
  | .error e => .error e
  | .ok (_, out) => .ok out

/-- The key shapes claim C4 declares serializable: strings, unit enum
variants, integers of any width, chars, and newtype wrappers of
these. -/
def key_acceptable : SValue → Bool
  | .str _ => true
  | .unitVariant _ _ => true
  | .i8 _ => true
  | .i16 _ => true
  | .i32 _ => true
  | .i64 _ => true
  | .i128 _ => true
  | .u8 _ => true
  | .u16 _ => true
  | .u32 _ => true
  | .u64 _ => true
  | .u128 _ => true
  | .char _ => true
  | .newtypeStruct _ value => key_acceptable value
  | _ => false

theorem map_key_err (v : SValue) (st : FmtState)
    (h : key_acceptable v = false) :
    map_key_serialize compact_formatter v st
      = .error .KeyMustBeAString := by
  induction v, st using map_key_serialize.induct compact_formatter
  all_goals
    first
    | rfl
    | (simp [key_acceptable] at h
       done)
    | (rename_i ih
       unfold map_key_serialize
       exact ih (by simpa [key_acceptable] using h))

theorem map_key_ok (v : SValue) (st : FmtState)
    (h : key_acceptable v = true) :
    ∃ st2 out, map_key_serialize compact_formatter v st
      = .ok (st2, out) := by
  induction v, st using map_key_serialize.induct compact_formatter
  all_goals
    first
    | exact ⟨_, _, rfl⟩
    | (simp [key_acceptable] at h
       done)
    | (rename_i ih
       unfold map_key_serialize
       exact ih (by simpa [key_acceptable] using h))

/-- C4: under the map-key serializer a key serializes successfully
exactly when it is a string, a unit enum variant (emitted as the
escaped variant name), an integer of any width (emitted inside quotes
with its decimal representation), a char (emitted as the escaped
one-character string), or a newtype wrapper of one of these (unwrapped
and retried); every other key shape fails with KeyMustBeAString. -/
theorem claim_C4 :
    (∀ (v : SValue) (st : FmtState), key_acceptable v = false →
      map_key_serialize compact_formatter v st
        = .error .KeyMustBeAString) ∧
    (∀ (v : SValue) (st : FmtState), key_acceptable v = true →
      ∃ st2 out, map_key_serialize compact_formatter v st
        = .ok (st2, out)) ∧
    (∀ (s : List Nat) (st : FmtState),
      map_key_serialize compact_formatter (.str s) st
        = .ok (format_escaped_str compact_formatter s st)) ∧
    (∀ (name variant : List Nat) (st : FmtState),
      map_key_serialize compact_formatter (.unitVariant name variant) st
        = .ok (format_escaped_str compact_formatter variant st)) ∧
    (∀ (v : Int) (st : FmtState),
      map_key_serialize compact_formatter (.i8 v) st
        = .ok (st, [0x22] ++ itoa_int v ++ [0x22]) ∧
      map_key_serialize compact_formatter (.i16 v) st
        = .ok (st, [0x22] ++ itoa_int v ++ [0x22]) ∧
      map_key_serialize compact_formatter (.i32 v) st
        = .ok (st, [0x22] ++ itoa_int v ++ [0x22]) ∧
      map_key_serialize compact_formatter (.i64 v) st
        = .ok (st, [0x22] ++ itoa_int v ++ [0x22]) ∧
      map_key_serialize compact_formatter (.i128 v) st
        = .ok (st, [0x22] ++ itoa_int v ++ [0x22])) ∧
    (∀ (v : Nat) (st : FmtState),
      map_key_serialize compact_formatter (.u8 v) st
        = .ok (st, [0x22] ++ itoa_nat v ++ [0x22]) ∧
      map_key_serialize compact_formatter (.u16 v) st
        = .ok (st, [0x22] ++ itoa_nat v ++ [0x22]) ∧
      map_key_serialize compact_formatter (.u32 v) st
        = .ok (st, [0x22] ++ itoa_nat v ++ [0x22]) ∧
      map_key_serialize compact_formatter (.u64 v) st
        = .ok (st, [0x22] ++ itoa_nat v ++ [0x22]) ∧
      map_key_serialize compact_formatter (.u128 v) st
        = .ok (st, [0x22] ++ itoa_nat v ++ [0x22])) ∧
    (∀ (c : Nat) (st : FmtState),
      map_key_serialize compact_formatter (.char c) st
        = .ok (format_escaped_str compact_formatter (encodeUtf8 c) st)) ∧
    (∀ (name : List Nat) (v : SValue) (st : FmtState),
      map_key_serialize compact_formatter (.newtypeStruct name v) st
        = map_key_serialize compact_formatter v st) :=
  ⟨map_key_err, map_key_ok,
    fun _ _ => rfl, fun _ _ _ => rfl,
    fun _ _ => ⟨rfl, rfl, rfl, rfl, rfl⟩,
    fun _ _ => ⟨rfl, rfl, rfl, rfl, rfl⟩,
    fun _ _ => rfl, fun _ _ _ => rfl⟩

theorem claim_C4_witness :
    map_key_serialize compact_formatter (.bool true)
        { current_indent := 0, has_value := false }
      = .error .KeyMustBeAString ∧
    (∃ st2 out, map_key_serialize compact_formatter (.u64 7)
        { current_indent := 0, has_value := false } = .ok (st2, out)) :=
  ⟨claim_C4.1 (.bool true) { current_indent := 0, has_value := false } rfl,
    claim_C4.2.1 (.u64 7) { current_indent := 0, has_value := false } rfl⟩

/-- C5: for every f64 (and f32) value that is NaN or an infinity,
serialization succeeds and writes the literal null, under any
formatter whose write_null is the default. -/
theorem claim_C5 (F : Formatter) (v : Fp) (st : FmtState)
    (hw : F.write_null = default_write_null)
    (hv : v.classify = .Nan ∨ v.classify = .Infinite) :
    ser_value F (.f64 v) st = .ok (st, [0x6E, 0x75, 0x6C, 0x6C]) ∧
    ser_value F (.f32 v) st = .ok (st, [0x6E, 0x75, 0x6C, 0x6C]) := by
  cases v with
  | nan =>
    constructor
    all_goals
      simp only [ser_value, Fp.classify]
      rw [hw]
      rfl
  | infinite neg =>
    constructor
    all_goals
      simp only [ser_value, Fp.classify]
      rw [hw]
      rfl
  | finite r =>
    exfalso
    rcases hv with h | h <;> simp [Fp.classify] at h

theorem claim_C5_witness :
    ser_value compact_formatter (.f64 .nan)
        { current_indent := 0, has_value := false }
      = .ok ({ current_indent := 0, has_value := false },
        [0x6E, 0x75, 0x6C, 0x6C]) ∧
    ser_value compact_formatter (.f32 .nan)
        { current_indent := 0, has_value := false }
      = .ok ({ current_indent := 0, has_value := false },
        [0x6E, 0x75, 0x6C, 0x6C]) :=
  claim_C5 compact_formatter .nan
    { current_indent := 0, has_value := false } rfl (Or.inl rfl)

/-- Byte-lexicographic strict order on keys: the Ord of Rust String /
byte slices, which the BTreeMap behind Map sorts by. -/
def bytes_lt : List Nat → List Nat → Bool
  | [], [] => false
  | [], _ :: _ => true
  | _ :: _, [] => false
  | a :: xs, b :: ys =>
    if a < b then true else if b < a then false else bytes_lt xs ys

/-- Models Map::insert of map.rs, backed by BTreeMap (the default
MapImpl, map.rs lines 29-30): the entry list is kept sorted by key and
an existing key's value is replaced. -/
def map_insert (k : List Nat) (v : SValue) :
    List (List Nat × SValue) → List (List Nat × SValue)
  | [] => [(k, v)]
  | (k2, v2) :: rest =>
    if bytes_lt k k2 then (k, v) :: (k2, v2) :: rest
    else if k = k2 then (k, v) :: rest
    else (k2, v2) :: map_insert k v rest

/-- Modelled from the spec: impl Serialize for Value (value/ser.rs,
declared in value/mod.rs but missing from src/): a Value::Object
serializes through serialize_map over its entries in map (sorted-key)
order, each key as a string and each value recursively; a small
integer Number serializes through serialize_u64 (number.rs is also
missing from src/; spec section 3 gives the u64 / i64 / f64 model and
section 6 the emission of integers).  Here the object's sorted entry
list is turned into the serde data model entries fed to the
serializer. -/
def obj_entries (m : List (List Nat × SValue)) : List (SValue × SValue) :=
  m.map (fun kv => (.str kv.1, kv.2))

unseal ser_value ser_seq ser_map ser_seq_elements ser_map_entries
  ser_struct ser_struct_fields fesc_loop nat_decimal_rev in
/-- C7: the default pretty formatter indents with two spaces, writes a
newline after every opening bracket or brace as part of the first
begin_*_value / begin_object_key and after every separating comma,
writes one space after each key's colon, and closes a container with a
newline plus indentation exactly when the container is non-empty; the
object built by inserting b at 1 then a at 2 pretty-emits with sorted
keys as the text brace, newline, two spaces, quoted a, colon space 2,
comma newline, two spaces, quoted b, colon space 1, newline, brace. -/
theorem claim_C7 :
    pretty_formatter_new = pretty_formatter [0x20, 0x20] ∧
    (∀ st, pretty_formatter_new.begin_object_value st
      = (st, [0x3A, 0x20])) ∧
    (∀ (first : Bool) st, pretty_formatter_new.begin_object_key first st
      = (st, (if first then [0x0A] else [0x2C, 0x0A])
          ++ indent_by st.current_indent [0x20, 0x20])) ∧
    (∀ (first : Bool) st, pretty_formatter_new.begin_array_value first st
      = (st, (if first then [0x0A] else [0x2C, 0x0A])
          ++ indent_by st.current_indent [0x20, 0x20])) ∧
    (∀ st, pretty_formatter_new.begin_array st
      = ({ current_indent := st.current_indent + 1, has_value := false },
          [0x5B])) ∧
    (∀ st, pretty_formatter_new.begin_object st
      = ({ current_indent := st.current_indent + 1, has_value := false },
          [0x7B])) ∧
    (∀ st, pretty_formatter_new.end_array st
      = ({ st with current_indent := st.current_indent - 1 },
          (if st.has_value then
            [0x0A] ++ indent_by (st.current_indent - 1) [0x20, 0x20]
          else []) ++ [0x5D])) ∧
    (∀ st, pretty_formatter_new.end_object st
      = ({ st with current_indent := st.current_indent - 1 },
          (if st.has_value then
            [0x0A] ++ indent_by (st.current_indent - 1) [0x20, 0x20]
          else []) ++ [0x7D])) ∧
    to_vec_pretty (.seq []) = .ok [0x5B, 0x5D] ∧
    to_vec_pretty (.map []) = .ok [0x7B, 0x7D] ∧
    to_vec_pretty (.map (obj_entries
        (map_insert [0x61] (.u64 2) (map_insert [0x62] (.u64 1) []))))
      = .ok [0x7B, 0x0A, 0x20, 0x20, 0x22, 0x61, 0x22, 0x3A, 0x20, 0x32,
          0x2C, 0x0A, 0x20, 0x20, 0x22, 0x62, 0x22, 0x3A, 0x20, 0x31,
          0x0A, 0x7D] :=
  ⟨rfl, fun _ => rfl, fun _ _ => rfl, fun _ _ => rfl, fun _ => rfl,
    fun _ => rfl, fun _ => rfl, fun _ => rfl, by decide, by decide,
    by decide⟩

/-- The dynamic value tree Value of value/mod.rs (lines 112-168), as
far as pointer lookup needs it; the Number payload plays no role in
pointer and is abstracted to an Int. -/
inductive JValue where
  | null
  | bool (b : Bool)
  | num (n : Int)
  | str (s : List Nat)
  | arr (xs : List JValue)
  | obj (m : List (List Nat × JValue))

/-- Map::get through the BTreeMap (map.rs lines 64-71), on the
sorted-entry-list model: the value of the matching key. -/
def map_get (m : List (List Nat × JValue)) (k : List Nat) :
    Option JValue :=
  match m with
  | [] => none
  | (k2, v) :: rest => if k2 = k then some v else map_get rest k

/-- str::split on a one-byte separator: the pieces between separator
occurrences, with empty pieces kept (splitting the empty input gives
one empty piece, as in Rust). -/
def splitByte (sep : Nat) : List Nat → List (List Nat)
  | [] => [[]]
  | b :: rest =>
    if b = sep then [] :: splitByte sep rest
    else
      match splitByte sep rest with
      | [] => [[b]]
      | t :: ts => (b :: t) :: ts

/-- str::replace of the two-byte pattern [a, b] by the one-byte
replacement [r]: left-to-right, non-overlapping. -/
def replace_pat2 (a b r : Nat) : List Nat → List Nat
  | [] => []
  | [x] => [x]
  | x :: y :: rest =>
    if x = a ∧ y = b then r :: replace_pat2 a b r rest
    else x :: replace_pat2 a b r (y :: rest)

/-- The token decoding of Value::pointer (value/mod.rs line 749):
replace ~1 by / and then ~0 by ~. -/
def pointer_unescape (t : List Nat) : List Nat :=
  replace_pat2 0x7E 0x30 0x7E (replace_pat2 0x7E 0x31 0x2F t)

/-- The numeric value of a decimal digit string (most significant first),
as accumulated by usize::from_str. -/
def decimal_value (s : List Nat) : Nat :=
  s.foldl (fun acc d => acc * 10 + (d - 0x30)) 0

/-- usize::from_str on a 64-bit target: an optional leading +, then at
least one ASCII digit, and the value must fit in a usize. -/
def parse_usize (s : List Nat) : Option Nat :=
  if s = [] then none
  else
    let digits := if s.head? = some 0x2B then s.drop 1 else s
    if digits = [] then none
    else if digits.all (fun b => 0x30 ≤ b && b ≤ 0x39) then
      if decimal_value digits < 2 ^ 64 then some (decimal_value digits)
      else none
    else none

/-- fn parse_index of value/mod.rs. -/
def parse_index_fn (s : List Nat) : Option Nat :=
  if s.head? = some 0x2B ∨ (s.head? = some 0x30 ∧ s.length ≠ 1) then none
  else parse_usize s

/-- One try_fold step of Value::pointer: descend from the current
target through one decoded token. -/
def pointer_step (target : Option JValue) (token : List Nat) :
    Option JValue :=
  target.bind (fun t =>
    match t with
    | .obj m => map_get m token
    | .arr xs => (parse_index_fn token).bind (fun x => xs[x]?)
    | _ => none)

/-- Value::pointer (value/mod.rs lines 739-755): empty pointer returns
the value itself; a pointer not starting with / returns None;
otherwise the pointer splits on /, the leading empty token is skipped,
each token is unescaped, and try_fold descends: object tokens by key
lookup, array tokens by parsed index, anything else fails. -/
def JValue.pointer (v : JValue) (p : List Nat) : Option JValue :=
  if p = [] then some v
  else if p.head? ≠ some 0x2F then none
  else
    (((splitByte 0x2F p).drop 1).map pointer_unescape).foldl
      pointer_step (some v)

/-- The escaping claim C8 describes: in the key, ~ becomes ~0 and /
becomes ~1 (each character mapped independently). -/
def pointer_escape (k : List Nat) : List Nat :=
  k.flatMap (fun b =>
    if b = 0x7E then [0x7E, 0x30]
    else if b = 0x2F then [0x7E, 0x31] else [b])

theorem replace_pat2_skip {a b r x : Nat} (l : List Nat) (hx : x ≠ a) :
    replace_pat2 a b r (x :: l) = x :: replace_pat2 a b r l := by
  cases l with
  | nil => rfl
  | cons y rest =>
    conv_lhs => rw [replace_pat2]
    rw [if_neg (fun hc => hx hc.1)]

theorem pointer_escape_step1 (k : List Nat) :
    replace_pat2 0x7E 0x31 0x2F (pointer_escape k)
      = k.flatMap (fun b => if b = 0x7E then [0x7E, 0x30] else [b]) := by
  induction k with
  | nil => rfl
  | cons b rest ih =>
    unfold pointer_escape at ih ⊢
    rw [List.flatMap_cons, List.flatMap_cons]
    by_cases h7E : b = 0x7E
    · subst h7E
      rw [if_pos rfl, if_pos rfl]
      simp only [List.cons_append, List.nil_append]
      conv_lhs => rw [replace_pat2]
      rw [if_neg (by intro hc; exact absurd hc.2 (by decide))]
      rw [replace_pat2_skip _ (by decide), ih]
    · rw [if_neg h7E]
      by_cases h2F : b = 0x2F
      · subst h2F
        rw [if_pos rfl, if_neg (by decide)]
        simp only [List.cons_append, List.nil_append]
        conv_lhs => rw [replace_pat2]
        rw [if_pos ⟨rfl, rfl⟩, ih]
      · rw [if_neg h2F, if_neg h7E]
        simp only [List.cons_append, List.nil_append]
        rw [replace_pat2_skip _ (by omega), ih]

theorem pointer_escape_step2 (k : List Nat) :
    replace_pat2 0x7E 0x30 0x7E
        (k.flatMap (fun b => if b = 0x7E then [0x7E, 0x30] else [b]))
      = k := by
  induction k with
  | nil => rfl
  | cons b rest ih =>
    rw [List.flatMap_cons]
    by_cases h7E : b = 0x7E
    · subst h7E
      rw [if_pos rfl]
      simp only [List.cons_append, List.nil_append]
      conv_lhs => rw [replace_pat2]
      rw [if_pos ⟨rfl, rfl⟩, ih]
    · rw [if_neg h7E]
      simp only [List.cons_append, List.nil_append]
      rw [replace_pat2_skip _ (by omega), ih]

theorem pointer_unescape_escape (k : List Nat) :
    pointer_unescape (pointer_escape k) = k := by
  unfold pointer_unescape
  rw [pointer_escape_step1, pointer_escape_step2]

theorem pointer_escape_no_slash (k : List Nat) :
    ∀ b ∈ pointer_escape k, b ≠ 0x2F := by
  induction k with
  | nil => simp [pointer_escape]
  | cons x rest ih =>
    unfold pointer_escape at ih ⊢
    rw [List.flatMap_cons]
    intro b hb
    rw [List.mem_append] at hb
    rcases hb with hb | hb
    · by_cases h7E : x = 0x7E
      · subst h7E
        rw [if_pos rfl] at hb
        simp at hb
        rcases hb with rfl | rfl <;> decide
      · rw [if_neg h7E] at hb
        by_cases h2F : x = 0x2F
        · subst h2F
          rw [if_pos rfl] at hb
          simp at hb
          rcases hb with rfl | rfl <;> decide
        · rw [if_neg h2F] at hb
          simp at hb
          subst hb
          omega
    · exact ih b hb

theorem splitByte_no_sep {sep : Nat} (l : List Nat)
    (h : ∀ b ∈ l, b ≠ sep) : splitByte sep l = [l] := by
  induction l with
  | nil => rfl
  | cons x rest ih =>
    unfold splitByte
    rw [if_neg (h x (by simp))]
    rw [ih (fun b hb => h b (by simp [hb]))]

theorem splitByte_ne_nil (sep : Nat) (l : List Nat) :
    splitByte sep l ≠ [] := by
  cases l with
  | nil => simp [splitByte]
  | cons b rest =>
    unfold splitByte
    split
    · simp
    · split <;> simp

theorem pointer_fold_none (tokens : List (List Nat)) :
    tokens.foldl pointer_step none = none := by
  induction tokens with
  | nil => rfl
  | cons t ts ih =>
    rw [List.foldl_cons]
    show ts.foldl pointer_step none = none
    exact ih

/-- C8: for every object and every key k stored in it, pointer lookup
with the slash-prefixed token obtained by replacing ~ with ~0 and /
with ~1 in k returns the stored value; a non-empty pointer not
starting with a slash returns None; and descending into a
non-container value fails the lookup (None). -/
theorem claim_C8 :
    (∀ (m : List (List Nat × JValue)) (k : List Nat) (v : JValue),
      map_get m k = some v →
      JValue.pointer (.obj m) (0x2F :: pointer_escape k) = some v) ∧
    (∀ (val : JValue) (p : List Nat), p ≠ [] → p.head? ≠ some 0x2F →
      val.pointer p = none) ∧
    (∀ (rest : List Nat) (b : Bool) (n : Int) (s : List Nat),
      JValue.pointer .null (0x2F :: rest) = none ∧
      JValue.pointer (.bool b) (0x2F :: rest) = none ∧
      JValue.pointer (.num n) (0x2F :: rest) = none ∧
      JValue.pointer (.str s) (0x2F :: rest) = none) := by
  have hsplit : ∀ rest : List Nat, ∃ t ts,
      ((splitByte 0x2F (0x2F :: rest)).drop 1).map pointer_unescape
        = t :: ts := by
    intro rest
    have h1 : splitByte 0x2F (0x2F :: rest) = [] :: splitByte 0x2F rest := by
      conv_lhs => rw [splitByte]
      rw [if_pos rfl]
    rw [h1]
    cases hsb : splitByte 0x2F rest with
    | nil => exact absurd hsb (splitByte_ne_nil 0x2F rest)
    | cons a b => exact ⟨pointer_unescape a, b.map pointer_unescape, rfl⟩
  have hscalar : ∀ (val : JValue) (rest : List Nat),
      (match val with
        | .obj _ => False
        | .arr _ => False
        | _ => True) →
      JValue.pointer val (0x2F :: rest) = none := by
    intro val rest hv
    unfold JValue.pointer
    rw [if_neg (by simp), if_neg (by simp)]
    obtain ⟨t, ts, hts⟩ := hsplit rest
    rw [hts, List.foldl_cons]
    have hstep : pointer_step (some val) t = none := by
      unfold pointer_step
      cases val <;> simp_all
    rw [hstep, pointer_fold_none]
  refine ⟨?_, ?_, ?_⟩
  · intro m k v hget
    unfold JValue.pointer
    rw [if_neg (by simp), if_neg (by simp)]
    have h1 : splitByte 0x2F (0x2F :: pointer_escape k)
        = [] :: [pointer_escape k] := by
      conv_lhs => rw [splitByte]
      rw [if_pos rfl, splitByte_no_sep _ (pointer_escape_no_slash k)]
    rw [h1]
    simp only [List.drop_succ_cons, List.drop_zero, List.map_cons,
      List.map_nil, pointer_unescape_escape, List.foldl_cons,
      List.foldl_nil]
    unfold pointer_step
    simpa using hget
  · intro val p hne hhead
    unfold JValue.pointer
    rw [if_neg hne, if_pos hhead]
  · intro rest b n s
    exact ⟨hscalar .null rest trivial, hscalar (.bool b) rest trivial,
      hscalar (.num n) rest trivial, hscalar (.str s) rest trivial⟩

theorem claim_C8_witness :
    JValue.pointer (.obj [([0x61, 0x2F, 0x7E], .bool true)])
        (0x2F :: pointer_escape [0x61, 0x2F, 0x7E])
      = some (.bool true) :=
  claim_C8.1 [([0x61, 0x2F, 0x7E], .bool true)] [0x61, 0x2F, 0x7E]
    (.bool true) rfl

/-- Bytes of the pattern " at line " searched for by parse_line_col. -/
def at_line_pat : List Nat :=
  [0x20, 0x61, 0x74, 0x20, 0x6C, 0x69, 0x6E, 0x65, 0x20]

/-- Bytes of the pattern " column " checked by parse_line_col. -/
def column_pat : List Nat :=
  [0x20, 0x63, 0x6F, 0x6C, 0x75, 0x6D, 0x6E, 0x20]

/-- str::starts_with of pat at byte offset p of msg. -/
def match_at (msg pat : List Nat) (p : Nat) : Bool :=
  decide ((msg.drop p).take pat.length = pat)

/-- fn starts_with_digit (error.rs lines 422-427) applied to a single
byte: it is an ASCII digit. -/
def is_ascii_digit (b : Nat) : Bool :=
  decide (0x30 ≤ b) && decide (b ≤ 0x39)

/-- str::rfind, scanning candidate byte offsets downward from the given
start: the largest offset at which the pattern occurs, if any. -/
def rfind_loop (msg pat : List Nat) : Nat → Option Nat
  | 0 => if match_at msg pat 0 then some 0 else none
  | p + 1 =>
    if match_at msg pat (p + 1) then some (p + 1) else rfind_loop msg pat p

/-- str::rfind of pat in msg. -/
def rfind (msg pat : List Nat) : Option Nat :=
  rfind_loop msg pat msg.length

/-- The two while loops of parse_line_col (error.rs lines 388-391 and
399-402): advance the index while the rest of the message starts with an
ASCII digit. -/
def digit_run_end (msg : List Nat) (i : Nat) : Nat :=
  if h : i < msg.length ∧ is_ascii_digit (msg.getD i 0) then
    digit_run_end msg (i + 1)
  else i
termination_by msg.length - i
decreasing_by simp_wf; omega

/-- fn parse_line_col (error.rs lines 380-420): find the last
" at line ", scan the line digits, require " column " plus digits
running to the end of the message, parse both numbers as usize and
truncate the message before the suffix. -/
def parse_line_col (msg : List Nat) : Option (List Nat × Nat × Nat) :=
  match rfind msg at_line_pat with
  | none => none
  | some start_of_suffix =>
    let start_of_line := start_of_suffix + at_line_pat.length
    let end_of_line := digit_run_end msg start_of_line
    if match_at msg column_pat end_of_line then
      let start_of_column := end_of_line + column_pat.length
      let end_of_column := digit_run_end msg start_of_column
      if end_of_column < msg.length then none
      else
        match parse_usize (subslice msg start_of_line end_of_line) with
        | none => none
        | some line =>
          match parse_usize
              (subslice msg start_of_column end_of_column) with
          | none => none
          | some column => some (msg.take start_of_suffix, line, column)
    else none

/-- struct ErrorImpl (error.rs lines 106-110): error code plus the
one-based line and column of the error. -/
structure ErrorImpl where
  code : ErrorCode
  line : Nat
  column : Nat
deriving DecidableEq

/-- fn make_error (error.rs lines 369-378): extract a position suffix
from the message when present, else position (0, 0). -/
def make_error (msg : List Nat) : ErrorImpl :=
  match parse_line_col msg with
  | some (m, l, c) => ⟨.Message m, l, c⟩
  | none => ⟨.Message msg, 0, 0⟩

theorem rfind_loop_some_match (msg pat : List Nat) (start q : Nat)
    (h : rfind_loop msg pat start = some q) :
    match_at msg pat q = true ∧ q ≤ start := by
  induction start with
  | zero =>
    simp only [rfind_loop] at h
    by_cases h0 : match_at msg pat 0 = true
    · rw [if_pos h0] at h
      cases h
      exact ⟨h0, Nat.le_refl 0⟩
    · rw [if_neg h0] at h
      cases h
  | succ p ih =>
    simp only [rfind_loop] at h
    by_cases h0 : match_at msg pat (p + 1) = true
    · rw [if_pos h0] at h
      cases h
      exact ⟨h0, Nat.le_refl _⟩
    · rw [if_neg h0] at h
      exact ⟨(ih h).1, (ih h).2.trans (Nat.le_succ p)⟩

theorem rfind_loop_eq_some (msg pat : List Nat) (q start : Nat)
    (hq : match_at msg pat q = true) (hqs : q ≤ start)
    (habove : ∀ p, q < p → match_at msg pat p = false) :
    rfind_loop msg pat start = some q := by
  induction start with
  | zero =>
    have hq0 : q = 0 := Nat.le_zero.mp hqs
    subst hq0
    simp only [rfind_loop]
    rw [if_pos hq]
  | succ p ih =>
    by_cases he : q = p + 1
    · subst he
      simp only [rfind_loop]
      rw [if_pos hq]
    · have hle : q ≤ p := by omega
      simp only [rfind_loop]
      rw [if_neg (by rw [habove (p + 1) (by omega)]; simp)]
      exact ih hle

theorem getElem?_append_left2 {l1 l2 : List Nat} {i : Nat}
    (h : i < l1.length) : (l1 ++ l2)[i]? = l1[i]? := by
  rw [List.getElem?_append, if_pos h]

theorem takeWhile_all_append (p : Nat → Bool) (xs ys : List Nat)
    (h : ∀ b ∈ xs, p b = true) :
    (xs ++ ys).takeWhile p = xs ++ ys.takeWhile p := by
  induction xs with
  | nil => simp
  | cons a l ih =>
    simp only [List.cons_append, List.takeWhile_cons,
      h a (List.mem_cons_self a l)]
    rw [ih (fun b hb => h b (List.mem_cons_of_mem a hb))]
    simp

theorem dropWhile_eq_drop_len (p : Nat → Bool) (l : List Nat) :
    l.dropWhile p = l.drop (l.takeWhile p).length := by
  induction l with
  | nil => simp
  | cons a tl ih =>
    by_cases hp : p a = true
    · simp [List.dropWhile_cons, List.takeWhile_cons, hp, ih]
    · simp [List.dropWhile_cons, List.takeWhile_cons, hp]

theorem take_len_takeWhile (p : Nat → Bool) (l : List Nat) :
    l.take (l.takeWhile p).length = l.takeWhile p := by
  induction l with
  | nil => simp
  | cons a tl ih =>
    by_cases hp : p a = true
    · simp [List.takeWhile_cons, hp, ih]
    · simp [List.takeWhile_cons, hp]

theorem takeWhile_length_le (p : Nat → Bool) (l : List Nat) :
    (l.takeWhile p).length ≤ l.length := by
  conv_rhs => rw [← List.takeWhile_append_dropWhile p l]
  rw [List.length_append]
  omega

theorem takeWhile_len_full (p : Nat → Bool) (l : List Nat)
    (h : l.length ≤ (l.takeWhile p).length) : l.takeWhile p = l := by
  induction l with
  | nil => simp
  | cons a tl ih =>
    by_cases hp : p a = true
    · simp only [List.takeWhile_cons, hp, if_true, List.length_cons] at h ⊢
      rw [ih (by simpa using h)]
    · simp [List.takeWhile_cons, hp] at h

theorem digit_run_end_eq (msg : List Nat) (i : Nat) :
    digit_run_end msg i
      = i + ((msg.drop i).takeWhile is_ascii_digit).length := by
  induction i using digit_run_end.induct msg with
  | case1 i h ih =>
    obtain ⟨hlt, hdig⟩ := h
    unfold digit_run_end
    rw [dif_pos ⟨hlt, hdig⟩, ih]
    rw [List.drop_eq_getElem_cons hlt, List.takeWhile_cons]
    rw [List.getD_eq_getElem msg 0 hlt] at hdig
    rw [hdig]
    simp
    omega
  | case2 i h =>
    unfold digit_run_end
    rw [dif_neg h]
    by_cases hlt : i < msg.length
    · have hnd : ¬ is_ascii_digit (msg.getD i 0) = true := fun hd =>
        h ⟨hlt, hd⟩
      rw [List.drop_eq_getElem_cons hlt, List.takeWhile_cons]
      rw [List.getD_eq_getElem msg 0 hlt] at hnd
      rw [if_neg hnd]
      simp
    · rw [List.drop_eq_nil_of_le (by omega)]
      simp

theorem suffix_space_pair (n m : List Nat)
    (hn : n ≠ []) (hm : m ≠ [])
    (hnd : ∀ b ∈ n, 0x30 ≤ b ∧ b ≤ 0x39)
    (hmd : ∀ b ∈ m, 0x30 ≤ b ∧ b ≤ 0x39)
    (t : Nat) (ht : 1 ≤ t)
    (h32 : (at_line_pat ++ (n ++ (column_pat ++ m)))[t]? = some 0x20) :
    (at_line_pat ++ (n ++ (column_pat ++ m)))[t + 1]? ≠ some 0x61 := by
  intro h97
  have hn0 : 0 < n.length := List.length_pos.mpr hn
  by_cases h9 : t < 9
  · have hP : at_line_pat[t]? = some 0x20 := by
      rw [getElem?_append_left2 (by simp [at_line_pat]; omega)] at h32
      exact h32
    interval_cases t
    · exact absurd hP (by decide)
    · exact absurd hP (by decide)
    · rw [getElem?_append_left2 (by decide)] at h97
      exact absurd h97 (by decide)
    · exact absurd hP (by decide)
    · exact absurd hP (by decide)
    · exact absurd hP (by decide)
    · exact absurd hP (by decide)
    · rw [List.getElem?_append_right (by decide)] at h97
      rw [getElem?_append_left2 (by simp [at_line_pat]; omega)] at h97
      have hmem : (0x61 : Nat) ∈ n := List.mem_iff_getElem?.mpr ⟨_, h97⟩
      have := hnd _ hmem
      omega
  · by_cases hA : t < 9 + n.length
    · rw [List.getElem?_append_right (by simp [at_line_pat]; omega)] at h32
      rw [getElem?_append_left2 (by simp [at_line_pat]; omega)] at h32
      have hmem : (0x20 : Nat) ∈ n := List.mem_iff_getElem?.mpr ⟨_, h32⟩
      have := hnd _ hmem
      omega
    · by_cases hB : t < 17 + n.length
      · rw [List.getElem?_append_right (by simp [at_line_pat]; omega)]
          at h32
        rw [List.getElem?_append_right (by simp [at_line_pat]; omega)]
          at h32
        rw [getElem?_append_left2
          (by simp [at_line_pat, column_pat]; omega)] at h32
        obtain ⟨k, hk⟩ : ∃ k, t - at_line_pat.length - n.length = k :=
          ⟨_, rfl⟩
        rw [hk] at h32
        have hk' : t - 9 - n.length = k := by
          simpa [at_line_pat] using hk
        have hk8 : k < 8 := by omega
        interval_cases k
        · have ht' : t = 9 + n.length := by omega
          subst ht'
          rw [List.getElem?_append_right (by simp [at_line_pat]; omega)]
            at h97
          rw [List.getElem?_append_right (by simp [at_line_pat]; omega)]
            at h97
          rw [getElem?_append_left2
            (by simp [at_line_pat, column_pat]; omega)] at h97
          rw [show 9 + n.length + 1 - at_line_pat.length - n.length = 1
            from by simp only [at_line_pat, List.length_cons,
              List.length_nil]; omega] at h97
          exact absurd h97 (by decide)
        · exact absurd h32 (by decide)
        · exact absurd h32 (by decide)
        · exact absurd h32 (by decide)
        · exact absurd h32 (by decide)
        · exact absurd h32 (by decide)
        · exact absurd h32 (by decide)
        · have ht' : t = 16 + n.length := by omega
          subst ht'
          rw [List.getElem?_append_right (by simp [at_line_pat]; omega)]
            at h97
          rw [List.getElem?_append_right (by simp [at_line_pat]; omega)]
            at h97
          rw [List.getElem?_append_right
            (by simp [at_line_pat, column_pat]; omega)] at h97
          have hmem : (0x61 : Nat) ∈ m :=
            List.mem_iff_getElem?.mpr ⟨_, h97⟩
          have := hmd _ hmem
          omega
      · rw [List.getElem?_append_right (by simp [at_line_pat]; omega)]
          at h32
        rw [List.getElem?_append_right (by simp [at_line_pat]; omega)]
          at h32
        rw [List.getElem?_append_right
          (by simp [at_line_pat, column_pat]; omega)] at h32
        have hmem : (0x20 : Nat) ∈ m := List.mem_iff_getElem?.mpr ⟨_, h32⟩
        have := hmd _ hmem
        omega

theorem no_match_above (pre n m : List Nat)
    (hn : n ≠ []) (hm : m ≠ [])
    (hnd : ∀ b ∈ n, 0x30 ≤ b ∧ b ≤ 0x39)
    (hmd : ∀ b ∈ m, 0x30 ≤ b ∧ b ≤ 0x39) :
    ∀ p, pre.length < p →
      match_at (pre ++ (at_line_pat ++ (n ++ (column_pat ++ m))))
        at_line_pat p = false := by
  intro p hp
  by_contra hmt
  rw [Bool.not_eq_false] at hmt
  unfold match_at at hmt
  rw [decide_eq_true_eq] at hmt
  have hb : ∀ j, j < at_line_pat.length →
      (pre ++ (at_line_pat ++ (n ++ (column_pat ++ m))))[p + j]?
        = at_line_pat[j]? := by
    intro j hj
    have h1 := congrArg (fun l => l[j]?) hmt
    simp only at h1
    rw [List.getElem?_take, if_pos hj, List.getElem?_drop] at h1
    exact h1
  have hb0 := hb 0 (by decide)
  have hb1 := hb 1 (by decide)
  rw [show at_line_pat[0]? = some 0x20 from rfl] at hb0
  rw [show at_line_pat[1]? = some 0x61 from rfl] at hb1
  rw [show p + 0 = p from rfl] at hb0
  rw [List.getElem?_append_right (show pre.length ≤ p by omega)] at hb0
  rw [List.getElem?_append_right (show pre.length ≤ p + 1 by omega)] at hb1
  rw [show p + 1 - pre.length = (p - pre.length) + 1 by omega] at hb1
  exact suffix_space_pair n m hn hm hnd hmd (p - pre.length) (by omega)
    hb0 hb1

theorem match_at_decomp (pre n m : List Nat) :
    match_at (pre ++ (at_line_pat ++ (n ++ (column_pat ++ m))))
      at_line_pat pre.length = true := by
  unfold match_at
  rw [decide_eq_true_eq, List.drop_left, List.take_left]

theorem rfind_decomp (pre n m : List Nat)
    (hn : n ≠ []) (hm : m ≠ [])
    (hnd : ∀ b ∈ n, 0x30 ≤ b ∧ b ≤ 0x39)
    (hmd : ∀ b ∈ m, 0x30 ≤ b ∧ b ≤ 0x39) :
    rfind (pre ++ (at_line_pat ++ (n ++ (column_pat ++ m))))
      at_line_pat = some pre.length := by
  unfold rfind
  exact rfind_loop_eq_some _ _ _ _ (match_at_decomp pre n m)
    (by simp) (no_match_above pre n m hn hm hnd hmd)

theorem drop_pre_pat (pre X : List Nat) :
    (pre ++ (at_line_pat ++ X)).drop (pre.length + 9) = X := by
  rw [← List.drop_drop, List.drop_left]
  show List.drop at_line_pat.length (at_line_pat ++ X) = X
  exact List.drop_left _ _

theorem parse_usize_digits (s : List Nat) (hs : s ≠ [])
    (hd : ∀ b ∈ s, 0x30 ≤ b ∧ b ≤ 0x39)
    (hv : decimal_value s < 2 ^ 64) :
    parse_usize s = some (decimal_value s) := by
  have hhead : ¬ s.head? = some 0x2B := by
    cases s with
    | nil => exact absurd rfl hs
    | cons a tl =>
      simp only [List.head?_cons]
      intro hc
      have := hd a (List.mem_cons_self a tl)
      cases hc
      omega
  have hall : s.all (fun b => 0x30 ≤ b && b ≤ 0x39) = true := by
    simp only [List.all_eq_true, Bool.and_eq_true, decide_eq_true_eq]
    exact fun b hb => ⟨(hd b hb).1, (hd b hb).2⟩
  simp only [parse_usize]
  rw [if_neg hhead, if_neg hs, if_neg hs, if_pos hall, if_pos hv]

theorem parse_line_col_decomp (pre n m : List Nat)
    (hn : n ≠ []) (hm : m ≠ [])
    (hnd : ∀ b ∈ n, 0x30 ≤ b ∧ b ≤ 0x39)
    (hmd : ∀ b ∈ m, 0x30 ≤ b ∧ b ≤ 0x39)
    (hvn : decimal_value n < 2 ^ 64) (hvm : decimal_value m < 2 ^ 64) :
    parse_line_col (pre ++ (at_line_pat ++ (n ++ (column_pat ++ m))))
      = some (pre, decimal_value n, decimal_value m) := by
  have hlen9 : at_line_pat.length = 9 := rfl
  have hlen8 : column_pat.length = 8 := rfl
  have hdign : ∀ b ∈ n, is_ascii_digit b = true := by
    intro b hb
    have := hnd b hb
    simp only [is_ascii_digit, Bool.and_eq_true, decide_eq_true_eq]
    omega
  have hdigm : ∀ b ∈ m, is_ascii_digit b = true := by
    intro b hb
    have := hmd b hb
    simp only [is_ascii_digit, Bool.and_eq_true, decide_eq_true_eq]
    omega
  have htwm : m.takeWhile is_ascii_digit = m := by
    have h2 := takeWhile_all_append is_ascii_digit m [] hdigm
    simpa using h2
  have heol : digit_run_end
      (pre ++ (at_line_pat ++ (n ++ (column_pat ++ m))))
      (pre.length + 9) = pre.length + 9 + n.length := by
    rw [digit_run_end_eq, drop_pre_pat]
    rw [takeWhile_all_append _ _ _ hdign]
    rw [show (column_pat ++ m).takeWhile is_ascii_digit = [] from rfl]
    simp
  have hdm : (pre ++ (at_line_pat ++ (n ++ (column_pat ++ m)))).drop
      (pre.length + 9 + n.length + 8) = m := by
    rw [← List.drop_drop, ← List.drop_drop, drop_pre_pat, List.drop_left]
    show List.drop column_pat.length (column_pat ++ m) = m
    exact List.drop_left _ _
  have heoc : digit_run_end
      (pre ++ (at_line_pat ++ (n ++ (column_pat ++ m))))
      (pre.length + 9 + n.length + 8)
      = pre.length + 9 + n.length + 8 + m.length := by
    rw [digit_run_end_eq, hdm, htwm]
  have hcol : match_at (pre ++ (at_line_pat ++ (n ++ (column_pat ++ m))))
      column_pat (pre.length + 9 + n.length) = true := by
    unfold match_at
    rw [decide_eq_true_eq]
    rw [← List.drop_drop, drop_pre_pat, List.drop_left, List.take_left]
  have hmsglen : (pre ++ (at_line_pat ++ (n ++ (column_pat ++ m)))).length
      = pre.length + 9 + n.length + 8 + m.length := by
    simp only [List.length_append, hlen9, hlen8]
    omega
  have hsub1 : subslice (pre ++ (at_line_pat ++ (n ++ (column_pat ++ m))))
      (pre.length + 9) (pre.length + 9 + n.length) = n := by
    unfold subslice
    rw [drop_pre_pat,
      show pre.length + 9 + n.length - (pre.length + 9) = n.length
        from by omega]
    exact List.take_left _ _
  have hsub2 : subslice (pre ++ (at_line_pat ++ (n ++ (column_pat ++ m))))
      (pre.length + 9 + n.length + 8)
      (pre.length + 9 + n.length + 8 + m.length) = m := by
    unfold subslice
    rw [hdm,
      show pre.length + 9 + n.length + 8 + m.length
          - (pre.length + 9 + n.length + 8) = m.length from by omega]
    exact List.take_of_length_le (Nat.le_refl _)
  have hrf := rfind_decomp pre n m hn hm hnd hmd
  rw [parse_line_col, hrf]
  simp only [hlen9, hlen8, heol, heoc]
  rw [if_pos hcol]
  rw [if_neg (show ¬ pre.length + 9 + n.length + 8 + m.length
      < (pre ++ (at_line_pat ++ (n ++ (column_pat ++ m)))).length
    from by rw [hmsglen]; omega)]
  rw [hsub1, parse_usize_digits n hn hnd hvn]
  rw [hsub2, parse_usize_digits m hm hmd hvm]
  rw [List.take_left]

theorem parse_line_col_some_decomp (msg : List Nat) (mm : List Nat) (l c : Nat)
    (hplc : parse_line_col msg = some (mm, l, c)) :
    ∃ pre n m, msg = pre ++ at_line_pat ++ n ++ column_pat ++ m ∧
      n ≠ [] ∧ m ≠ [] ∧ (∀ b ∈ n, 0x30 ≤ b ∧ b ≤ 0x39) ∧
      (∀ b ∈ m, 0x30 ≤ b ∧ b ≤ 0x39) := by
  rw [parse_line_col] at hplc
  rcases hr : rfind msg at_line_pat with _ | s
  · rw [hr] at hplc
    simp at hplc
  · rw [hr] at hplc
    simp only [] at hplc
    by_cases hcol : match_at msg column_pat
        (digit_run_end msg (s + at_line_pat.length)) = true
    swap
    · rw [if_neg hcol] at hplc
      simp at hplc
    rw [if_pos hcol] at hplc
    by_cases hend : digit_run_end msg
        (digit_run_end msg (s + at_line_pat.length) + column_pat.length)
        < msg.length
    · rw [if_pos hend] at hplc
      simp at hplc
    rw [if_neg hend] at hplc
    rcases hp1 : parse_usize (subslice msg (s + at_line_pat.length)
        (digit_run_end msg (s + at_line_pat.length))) with _ | l2
    · rw [hp1] at hplc
      simp at hplc
    rw [hp1] at hplc
    rcases hp2 : parse_usize (subslice msg
        (digit_run_end msg (s + at_line_pat.length) + column_pat.length)
        (digit_run_end msg (digit_run_end msg (s + at_line_pat.length)
          + column_pat.length))) with _ | c2
    · rw [hp2] at hplc
      simp at hplc
    rw [hp2] at hplc
    have hmat := rfind_loop_some_match msg at_line_pat msg.length s hr
    have e2 : msg.drop s
        = at_line_pat ++ msg.drop (s + at_line_pat.length) := by
      have h := hmat.1
      unfold match_at at h
      rw [decide_eq_true_eq] at h
      conv_lhs => rw [← List.take_append_drop at_line_pat.length
        (msg.drop s)]
      rw [h, List.drop_drop]
    have e3 : msg.drop (s + at_line_pat.length)
        = ((msg.drop (s + at_line_pat.length)).takeWhile is_ascii_digit)
          ++ msg.drop (digit_run_end msg (s + at_line_pat.length)) := by
      conv_lhs => rw [← List.takeWhile_append_dropWhile is_ascii_digit
        (msg.drop (s + at_line_pat.length))]
      rw [dropWhile_eq_drop_len, List.drop_drop, ← digit_run_end_eq]
    have e4 : msg.drop (digit_run_end msg (s + at_line_pat.length))
        = column_pat ++ msg.drop (digit_run_end msg
          (s + at_line_pat.length) + column_pat.length) := by
      have h := hcol
      unfold match_at at h
      rw [decide_eq_true_eq] at h
      conv_lhs => rw [← List.take_append_drop column_pat.length
        (msg.drop (digit_run_end msg (s + at_line_pat.length)))]
      rw [h, List.drop_drop]
    have etw : (msg.drop (digit_run_end msg (s + at_line_pat.length)
          + column_pat.length)).takeWhile is_ascii_digit
        = msg.drop (digit_run_end msg (s + at_line_pat.length)
          + column_pat.length) := by
      apply takeWhile_len_full
      have h1 := digit_run_end_eq msg
        (digit_run_end msg (s + at_line_pat.length) + column_pat.length)
      have h3 := List.length_drop
        (digit_run_end msg (s + at_line_pat.length) + column_pat.length)
        msg
      omega
    have hn2 : (msg.drop (s + at_line_pat.length)).takeWhile
        is_ascii_digit ≠ [] := by
      intro h0
      have hsub : subslice msg (s + at_line_pat.length)
          (digit_run_end msg (s + at_line_pat.length)) = [] := by
        unfold subslice
        rw [digit_run_end_eq,
          show s + at_line_pat.length + ((msg.drop
                (s + at_line_pat.length)).takeWhile is_ascii_digit).length
              - (s + at_line_pat.length)
            = ((msg.drop (s + at_line_pat.length)).takeWhile
                is_ascii_digit).length from by omega]
        rw [h0]
        simp
      rw [hsub, show parse_usize ([] : List Nat) = none from rfl] at hp1
      cases hp1
    have hm2 : msg.drop (digit_run_end msg (s + at_line_pat.length)
        + column_pat.length) ≠ [] := by
      intro h0
      have hsub : subslice msg (digit_run_end msg (s + at_line_pat.length)
            + column_pat.length)
          (digit_run_end msg (digit_run_end msg (s + at_line_pat.length)
            + column_pat.length)) = [] := by
        unfold subslice
        rw [h0]
        simp
      rw [hsub, show parse_usize ([] : List Nat) = none from rfl] at hp2
      cases hp2
    refine ⟨msg.take s,
      (msg.drop (s + at_line_pat.length)).takeWhile is_ascii_digit,
      msg.drop (digit_run_end msg (s + at_line_pat.length)
        + column_pat.length),
      ?_, hn2, hm2, ?_, ?_⟩
    · simp only [List.append_assoc]
      calc msg = msg.take s ++ msg.drop s :=
          (List.take_append_drop s msg).symm
        _ = msg.take s ++ (at_line_pat
            ++ msg.drop (s + at_line_pat.length)) := by rw [e2]
        _ = msg.take s ++ (at_line_pat
            ++ (((msg.drop (s + at_line_pat.length)).takeWhile
                is_ascii_digit)
              ++ msg.drop (digit_run_end msg (s + at_line_pat.length)))) := by
          conv_lhs => rw [e3]
        _ = msg.take s ++ (at_line_pat
            ++ (((msg.drop (s + at_line_pat.length)).takeWhile
                is_ascii_digit)
              ++ (column_pat ++ msg.drop (digit_run_end msg
                  (s + at_line_pat.length) + column_pat.length)))) := by
          conv_lhs => rw [e4]
    · intro b hb
      have hd := List.mem_takeWhile_imp hb
      simp only [is_ascii_digit, Bool.and_eq_true, decide_eq_true_eq]
        at hd
      exact hd
    · intro b hb
      rw [← etw] at hb
      have hd := List.mem_takeWhile_imp hb
      simp only [is_ascii_digit, Bool.and_eq_true, decide_eq_true_eq]
        at hd
      exact hd

/-- C9 (amended): an error built by make_error from a message of the
form pre ++ " at line " ++ N ++ " column " ++ M, with N and M nonempty
decimal digit strings whose values fit in a 64-bit usize, carries line N
and column M and keeps only pre as its message; a message admitting no
such suffix decomposition at all keeps position (0, 0) and the message
unchanged. -/
theorem claim_C9_amended :
    (∀ pre n m : List Nat, n ≠ [] → m ≠ [] →
      (∀ b ∈ n, 0x30 ≤ b ∧ b ≤ 0x39) → (∀ b ∈ m, 0x30 ≤ b ∧ b ≤ 0x39) →
      decimal_value n < 2 ^ 64 → decimal_value m < 2 ^ 64 →
      make_error (pre ++ at_line_pat ++ n ++ column_pat ++ m)
        = ⟨.Message pre, decimal_value n, decimal_value m⟩) ∧
    (∀ msg : List Nat,
      (¬ ∃ pre n m, msg = pre ++ at_line_pat ++ n ++ column_pat ++ m ∧
          n ≠ [] ∧ m ≠ [] ∧ (∀ b ∈ n, 0x30 ≤ b ∧ b ≤ 0x39) ∧
          (∀ b ∈ m, 0x30 ≤ b ∧ b ≤ 0x39)) →
      make_error msg = ⟨.Message msg, 0, 0⟩) := by
  constructor
  · intro pre n m hn hm hnd hmd hvn hvm
    have hassoc : pre ++ at_line_pat ++ n ++ column_pat ++ m
        = pre ++ (at_line_pat ++ (n ++ (column_pat ++ m))) := by
      simp [List.append_assoc]
    rw [hassoc, make_error,
      parse_line_col_decomp pre n m hn hm hnd hmd hvn hvm]
  · intro msg hno
    rcases hplc : parse_line_col msg with _ | ⟨mm, l, c⟩
    · rw [make_error, hplc]
    · exact absurd (parse_line_col_some_decomp msg mm l c hplc) hno

theorem claim_C9_witness :
    make_error ([0x78] ++ at_line_pat ++ [0x31, 0x32] ++ column_pat
        ++ [0x35])
      = ⟨.Message [0x78], 12, 5⟩ := by
  have h := claim_C9_amended.1 [0x78] [0x31, 0x32] [0x35] (by decide)
    (by decide) (by decide) (by decide) (by decide) (by decide)
  rw [show decimal_value [0x31, 0x32] = 12 from rfl,
    show decimal_value [0x35] = 5 from rfl] at h
  exact h

/-- Modelled from the claim: the decimal digits of 2^64, the smallest
line number rejected by usize::from_str on a 64-bit target. -/
def overflow_digits : List Nat :=
  [0x31, 0x38, 0x34, 0x34, 0x36, 0x37, 0x34, 0x34, 0x30, 0x37,
   0x33, 0x37, 0x30, 0x39, 0x35, 0x35, 0x31, 0x36, 0x31, 0x36]

unseal digit_run_end in
/-- C9 counterexample: the message " at line 18446744073709551616
column 1" carries the claimed suffix shape with nonempty digit strings,
yet make_error leaves it unchanged at position (0, 0), because a line
number of 2^64 overflows usize::from_str. -/
theorem claim_C9_counterexample :
    decimal_value overflow_digits = 2 ^ 64 ∧
    overflow_digits ≠ [] ∧
    (∀ b ∈ overflow_digits, 0x30 ≤ b ∧ b ≤ 0x39) ∧
    make_error (at_line_pat ++ overflow_digits ++ column_pat ++ [0x31])
      = ⟨.Message (at_line_pat ++ overflow_digits ++ column_pat
          ++ [0x31]), 0, 0⟩ := by
  refine ⟨by decide, by decide, by decide, by decide⟩

/-- Modelled from the spec: ryu prints finite floats with ASCII bytes
(digits, sign, point, exponent); non-finite payloads are never
printed. -/
def Fp.ascii_repr : Fp → Bool
  | .finite r => r.all (fun b => b < 0x80)
  | _ => true

mutual

/-- Modelled from the spec: the invariants the Rust type system grants
the serializer's inputs - str and the static names hold valid UTF-8,
char holds a Unicode scalar value, and finite floats carry an ASCII
ryu representation.  Only the parts the serializer prints are
constrained. -/
def SValue.WF : SValue → Bool
  | .f32 v => Fp.ascii_repr v
  | .f64 v => Fp.ascii_repr v
  | .char c => decide (c < 0x110000)
      && (decide (c < 0xD800) || decide (0xDFFF < c))
  | .str s => utf8_check s
  | .unitVariant _ variant => utf8_check variant
  | .newtypeStruct _ value => SValue.WF value
  | .newtypeVariant _ variant value =>
    utf8_check variant && SValue.WF value
  | .some value => SValue.WF value
  | .seq xs => SValue.WF_list xs
  | .tuple xs => SValue.WF_list xs
  | .tupleStruct _ xs => SValue.WF_list xs
  | .tupleVariant _ variant xs => utf8_check variant && SValue.WF_list xs
  | .map entries => SValue.WF_entries entries
  | .struct _ fields => SValue.WF_fields fields
  | .structVariant _ variant fields =>
    utf8_check variant && SValue.WF_fields fields
  | _ => true

/-- Well-formedness of every element of a sequence. -/
def SValue.WF_list : List SValue → Bool
  | [] => true
  | x :: rest => SValue.WF x && SValue.WF_list rest

/-- Well-formedness of every key and value of a map. -/
def SValue.WF_entries : List (SValue × SValue) → Bool
  | [] => true
  | (k, v) :: rest => SValue.WF k && SValue.WF v && SValue.WF_entries rest

/-- Well-formedness of every field name and value of a struct. -/
def SValue.WF_fields : List (List Nat × SValue) → Bool
  | [] => true
  | (k, v) :: rest =>
    utf8_check k && SValue.WF v && SValue.WF_fields rest

end

/-- The formatter hypotheses under which serialization emits UTF-8: the
string, numeric and literal callbacks are the trait defaults (true of
both CompactFormatter and PrettyFormatter), and each structural
callback only ever writes valid UTF-8 on its own. -/
structure FormatterOk (F : Formatter) : Prop where
  frag_eq : F.write_string_fragment = default_write_string_fragment
  esc_eq : F.write_char_escape = default_write_char_escape
  begin_string_eq : F.begin_string = default_begin_string
  end_string_eq : F.end_string = default_end_string
  null_eq : F.write_null = default_write_null
  bool_eq : F.write_bool = default_write_bool
  i8_eq : F.write_i8 = default_write_int
  i16_eq : F.write_i16 = default_write_int
  i32_eq : F.write_i32 = default_write_int
  i64_eq : F.write_i64 = default_write_int
  i128_eq : F.write_i128 = default_write_int
  u8_eq : F.write_u8 = default_write_nat
  u16_eq : F.write_u16 = default_write_nat
  u32_eq : F.write_u32 = default_write_nat
  u64_eq : F.write_u64 = default_write_nat
  u128_eq : F.write_u128 = default_write_nat
  f32_eq : F.write_f32 = default_write_f
  f64_eq : F.write_f64 = default_write_f
  begin_array_ok : ∀ st, utf8_check (F.begin_array st).2 = true
  end_array_ok : ∀ st, utf8_check (F.end_array st).2 = true
  begin_array_value_ok :
    ∀ first st, utf8_check (F.begin_array_value first st).2 = true
  end_array_value_ok : ∀ st, utf8_check (F.end_array_value st).2 = true
  begin_object_ok : ∀ st, utf8_check (F.begin_object st).2 = true
  end_object_ok : ∀ st, utf8_check (F.end_object st).2 = true
  begin_object_key_ok :
    ∀ first st, utf8_check (F.begin_object_key first st).2 = true
  end_object_key_ok : ∀ st, utf8_check (F.end_object_key st).2 = true
  begin_object_value_ok :
    ∀ st, utf8_check (F.begin_object_value st).2 = true
  end_object_value_ok : ∀ st, utf8_check (F.end_object_value st).2 = true

theorem utf8_check_ascii (l : List Nat) (h : ∀ x ∈ l, x < 0x80) :
    utf8_check l = true := by
  induction l with
  | nil => rfl
  | cons b rest ih =>
    conv_lhs => rw [utf8_check]
    rw [if_pos (h b (List.mem_cons_self b rest))]
    exact ih (fun x hx => h x (List.mem_cons_of_mem b hx))

theorem utf8_check_tail1_nil : utf8_check_tail1 [] = false := rfl

theorem utf8_check_tail2_nil (b : Nat) : utf8_check_tail2 b [] = false :=
  rfl

theorem utf8_check_tail2_one (b c1 : Nat) :
    utf8_check_tail2 b [c1] = false := rfl

theorem utf8_check_tail3_nil (b : Nat) : utf8_check_tail3 b [] = false :=
  rfl

theorem utf8_check_tail3_one (b c1 : Nat) :
    utf8_check_tail3 b [c1] = false := rfl

theorem utf8_check_tail3_two (b c1 c2 : Nat) :
    utf8_check_tail3 b [c1, c2] = false := rfl

theorem utf8_append_fuel (k : Nat) : ∀ a b : List Nat, a.length ≤ k →
    utf8_check a = true → utf8_check b = true →
    utf8_check (a ++ b) = true := by
  induction k with
  | zero =>
    intro a b hk ha hb
    cases a with
    | nil => simpa using hb
    | cons x rest => simp at hk
  | succ k ih =>
    intro a b hk ha hb
    cases a with
    | nil => simpa using hb
    | cons x rest =>
      rw [List.cons_append]
      rw [utf8_check] at ha
      conv_lhs => rw [utf8_check]
      by_cases h1 : x < 0x80
      · rw [if_pos h1] at ha
        rw [if_pos h1]
        exact ih rest b (by simp at hk; omega) ha hb
      · by_cases h2 : x < 0xC2
        · rw [if_neg h1, if_pos h2] at ha
          exact absurd ha (by simp)
        · by_cases h3 : x ≤ 0xDF
          · rw [if_neg h1, if_neg h2, if_pos h3] at ha
            rw [if_neg h1, if_neg h2, if_pos h3]
            cases rest with
            | nil =>
              rw [utf8_check_tail1_nil] at ha
              exact absurd ha (by simp)
            | cons c1 r =>
              rw [utf8_check_tail1] at ha
              rw [List.cons_append, utf8_check_tail1]
              rw [Bool.and_eq_true] at ha
              rw [Bool.and_eq_true]
              exact ⟨ha.1, ih r b (by simp at hk; omega) ha.2 hb⟩
          · by_cases h4 : x ≤ 0xEF
            · rw [if_neg h1, if_neg h2, if_neg h3, if_pos h4] at ha
              rw [if_neg h1, if_neg h2, if_neg h3, if_pos h4]
              cases rest with
              | nil =>
                rw [utf8_check_tail2_nil] at ha
                exact absurd ha (by simp)
              | cons c1 rest2 =>
                cases rest2 with
                | nil =>
                  rw [utf8_check_tail2_one] at ha
                  exact absurd ha (by simp)
                | cons c2 r =>
                  rw [utf8_check_tail2] at ha
                  rw [List.cons_append, List.cons_append,
                    utf8_check_tail2]
                  rw [Bool.and_eq_true, Bool.and_eq_true] at ha
                  rw [Bool.and_eq_true, Bool.and_eq_true]
                  exact ⟨⟨ha.1.1, ha.1.2⟩,
                    ih r b (by simp at hk; omega) ha.2 hb⟩
            · by_cases h5 : x ≤ 0xF4
              · rw [if_neg h1, if_neg h2, if_neg h3, if_neg h4,
                  if_pos h5] at ha
                rw [if_neg h1, if_neg h2, if_neg h3, if_neg h4,
                  if_pos h5]
                cases rest with
                | nil =>
                  rw [utf8_check_tail3_nil] at ha
                  exact absurd ha (by simp)
                | cons c1 rest2 =>
                  cases rest2 with
                  | nil =>
                    rw [utf8_check_tail3_one] at ha
                    exact absurd ha (by simp)
                  | cons c2 rest3 =>
                    cases rest3 with
                    | nil =>
                      rw [utf8_check_tail3_two] at ha
                      exact absurd ha (by simp)
                    | cons c3 r =>
                      rw [utf8_check_tail3] at ha
                      rw [List.cons_append, List.cons_append,
                        List.cons_append, utf8_check_tail3]
                      rw [Bool.and_eq_true, Bool.and_eq_true,
                        Bool.and_eq_true] at ha
                      rw [Bool.and_eq_true, Bool.and_eq_true,
                        Bool.and_eq_true]
                      exact ⟨⟨⟨ha.1.1.1, ha.1.1.2⟩, ha.1.2⟩,
                        ih r b (by simp at hk; omega) ha.2 hb⟩
              · rw [if_neg h1, if_neg h2, if_neg h3, if_neg h4,
                  if_neg h5] at ha
                exact absurd ha (by simp)

theorem utf8_check_append (a b : List Nat) (ha : utf8_check a = true)
    (hb : utf8_check b = true) : utf8_check (a ++ b) = true :=
  utf8_append_fuel a.length a b (Nat.le_refl _) ha hb

theorem escape_high (b : Nat) (hb : 0x80 ≤ b) :
    escape_byte_spec b = [b] := by
  unfold escape_byte_spec
  repeat rw [if_neg (by omega)]

set_option maxRecDepth 8192 in
theorem escape_ascii : ∀ b < 0x80, ∀ x ∈ escape_byte_spec b, x < 0x80 :=
  by decide

theorem tail2_inner_ge (x c1 : Nat)
    (h : (if x = 0xE0 then 0xA0 ≤ c1 && c1 ≤ 0xBF
      else if x = 0xED then 0x80 ≤ c1 && c1 ≤ 0x9F
      else utf8_cont c1) = true) : 0x80 ≤ c1 := by
  by_cases hE : x = 0xE0
  · rw [if_pos hE] at h
    simp at h
    omega
  · rw [if_neg hE] at h
    by_cases hD : x = 0xED
    · rw [if_pos hD] at h
      simp at h
      omega
    · rw [if_neg hD] at h
      simp [utf8_cont] at h
      omega

theorem tail3_inner_ge (x c1 : Nat)
    (h : (if x = 0xF0 then 0x90 ≤ c1 && c1 ≤ 0xBF
      else if x = 0xF4 then 0x80 ≤ c1 && c1 ≤ 0x8F
      else utf8_cont c1) = true) : 0x80 ≤ c1 := by
  by_cases hE : x = 0xF0
  · rw [if_pos hE] at h
    simp at h
    omega
  · rw [if_neg hE] at h
    by_cases hD : x = 0xF4
    · rw [if_pos hD] at h
      simp at h
      omega
    · rw [if_neg hD] at h
      simp [utf8_cont] at h
      omega

theorem cont_ge (c : Nat) (h : utf8_cont c = true) : 0x80 ≤ c := by
  simp [utf8_cont] at h
  omega

theorem utf8_flatMap_fuel (k : Nat) : ∀ s : List Nat, s.length ≤ k →
    utf8_check s = true →
    utf8_check (s.flatMap escape_byte_spec) = true := by
  induction k with
  | zero =>
    intro s hk hs
    cases s with
    | nil => rfl
    | cons x rest => simp at hk
  | succ k ih =>
    intro s hk hs
    cases s with
    | nil => rfl
    | cons x rest =>
      rw [List.flatMap_cons]
      rw [utf8_check] at hs
      by_cases h1 : x < 0x80
      · rw [if_pos h1] at hs
        exact utf8_check_append _ _
          (utf8_check_ascii _ (escape_ascii x h1))
          (ih rest (by simp at hk; omega) hs)
      · rw [escape_high x (by omega), List.singleton_append]
        conv_lhs => rw [utf8_check]
        by_cases h2 : x < 0xC2
        · rw [if_neg h1, if_pos h2] at hs
          exact absurd hs (by simp)
        · by_cases h3 : x ≤ 0xDF
          · rw [if_neg h1, if_neg h2, if_pos h3] at hs
            rw [if_neg h1, if_neg h2, if_pos h3]
            cases rest with
            | nil =>
              rw [utf8_check_tail1_nil] at hs
              exact absurd hs (by simp)
            | cons c1 r =>
              rw [utf8_check_tail1, Bool.and_eq_true] at hs
              rw [List.flatMap_cons, escape_high c1 (cont_ge c1 hs.1),
                List.singleton_append, utf8_check_tail1,
                Bool.and_eq_true]
              exact ⟨hs.1, ih r (by simp at hk; omega) hs.2⟩
          · by_cases h4 : x ≤ 0xEF
            · rw [if_neg h1, if_neg h2, if_neg h3, if_pos h4] at hs
              rw [if_neg h1, if_neg h2, if_neg h3, if_pos h4]
              cases rest with
              | nil =>
                rw [utf8_check_tail2_nil] at hs
                exact absurd hs (by simp)
              | cons c1 rest2 =>
                cases rest2 with
                | nil =>
                  rw [utf8_check_tail2_one] at hs
                  exact absurd hs (by simp)
                | cons c2 r =>
                  rw [utf8_check_tail2, Bool.and_eq_true,
                    Bool.and_eq_true] at hs
                  rw [List.flatMap_cons,
                    escape_high c1 (tail2_inner_ge x c1 hs.1.1),
                    List.singleton_append, List.flatMap_cons,
                    escape_high c2 (cont_ge c2 hs.1.2),
                    List.singleton_append, utf8_check_tail2,
                    Bool.and_eq_true, Bool.and_eq_true]
                  exact ⟨⟨hs.1.1, hs.1.2⟩,
                    ih r (by simp at hk; omega) hs.2⟩
            · by_cases h5 : x ≤ 0xF4
              · rw [if_neg h1, if_neg h2, if_neg h3, if_neg h4,
                  if_pos h5] at hs
                rw [if_neg h1, if_neg h2, if_neg h3, if_neg h4,
                  if_pos h5]
                cases rest with
                | nil =>
                  rw [utf8_check_tail3_nil] at hs
                  exact absurd hs (by simp)
                | cons c1 rest2 =>
                  cases rest2 with
                  | nil =>
                    rw [utf8_check_tail3_one] at hs
                    exact absurd hs (by simp)
                  | cons c2 rest3 =>
                    cases rest3 with
                    | nil =>
                      rw [utf8_check_tail3_two] at hs
                      exact absurd hs (by simp)
                    | cons c3 r =>
                      rw [utf8_check_tail3, Bool.and_eq_true,
                        Bool.and_eq_true, Bool.and_eq_true] at hs
                      rw [List.flatMap_cons,
                        escape_high c1 (tail3_inner_ge x c1 hs.1.1.1),
                        List.singleton_append, List.flatMap_cons,
                        escape_high c2 (cont_ge c2 hs.1.1.2),
                        List.singleton_append, List.flatMap_cons,
                        escape_high c3 (cont_ge c3 hs.1.2),
                        List.singleton_append, utf8_check_tail3,
                        Bool.and_eq_true, Bool.and_eq_true,
                        Bool.and_eq_true]
                      exact ⟨⟨⟨hs.1.1.1, hs.1.1.2⟩, hs.1.2⟩,
                        ih r (by simp at hk; omega) hs.2⟩
              · rw [if_neg h1, if_neg h2, if_neg h3, if_neg h4,
                  if_neg h5] at hs
                exact absurd hs (by simp)

theorem utf8_check_flatMap (s : List Nat) (hs : utf8_check s = true) :
    utf8_check (s.flatMap escape_byte_spec) = true :=
  utf8_flatMap_fuel s.length s (Nat.le_refl _) hs

theorem format_escaped_str_utf8 (F : Formatter) (hF : FormatterOk F)
    (s : List Nat) (hs : utf8_check s = true) (st : FmtState) :
    utf8_check (format_escaped_str F s st).2 = true := by
  simp only [format_escaped_str, format_escaped_str_contents]
  rw [fesc_loop_spec F hF.frag_eq hF.esc_eq s s.length 0 0 _
    (by omega) (by omega)]
  rw [hF.begin_string_eq, hF.end_string_eq]
  simp only [default_begin_string, default_end_string]
  rw [show subslice s 0 0 = [] from by simp [subslice], List.nil_append,
    List.drop_zero]
  exact utf8_check_append _ _
    (utf8_check_append _ _ (by decide) (utf8_check_flatMap s hs))
    (by decide)

theorem nat_decimal_rev_lt (n : Nat) :
    ∀ d ∈ nat_decimal_rev n, d < 10 := by
  induction n using nat_decimal_rev.induct with
  | case1 n h =>
    unfold nat_decimal_rev
    rw [dif_pos h]
    intro d hd
    simp at hd
    omega
  | case2 n h ih =>
    unfold nat_decimal_rev
    rw [dif_neg h]
    intro d hd
    rcases List.mem_cons.mp hd with h1 | h1
    · omega
    · exact ih d h1

theorem itoa_nat_ascii (n : Nat) : ∀ x ∈ itoa_nat n, x < 0x80 := by
  intro x hx
  unfold itoa_nat at hx
  rcases List.mem_map.mp hx with ⟨d, hd, hdx⟩
  have := nat_decimal_rev_lt n d (List.mem_reverse.mp hd)
  omega

theorem itoa_int_ascii (v : Int) : ∀ x ∈ itoa_int v, x < 0x80 := by
  intro x hx
  cases v with
  | ofNat n => exact itoa_nat_ascii n x hx
  | negSucc m =>
    unfold itoa_int at hx
    rcases List.mem_cons.mp hx with h1 | h1
    · omega
    · exact itoa_nat_ascii (m + 1) x h1

theorem encodeUtf8_valid (c : Nat) (hlt : c < 0x110000)
    (hsur : c < 0xD800 ∨ 0xDFFF < c) :
    utf8_check (encodeUtf8 c) = true := by
  unfold encodeUtf8
  by_cases h1 : c < 0x80
  · rw [if_pos h1]
    exact utf8_check_ascii _ (by intro x hx; simp at hx; omega)
  · rw [if_neg h1]
    by_cases h2 : c < 0x800
    · rw [if_pos h2]
      rw [utf8_check]
      repeat rw [if_neg (by omega)]
      rw [if_pos (by omega)]
      rw [utf8_check_tail1, Bool.and_eq_true]
      constructor
      · simp [utf8_cont]
        omega
      · rfl
    · rw [if_neg h2]
      by_cases h3 : c < 0x10000
      · rw [if_pos h3]
        rw [utf8_check]
        repeat rw [if_neg (by omega)]
        rw [if_pos (by omega)]
        rw [utf8_check_tail2, Bool.and_eq_true, Bool.and_eq_true]
        refine ⟨⟨?_, ?_⟩, rfl⟩
        · by_cases hE : c < 0x1000
          · rw [if_pos (by omega : (0xE0 + c / 4096 : Nat) = 0xE0)]
            simp
            omega
          · rw [if_neg (by omega : ¬ (0xE0 + c / 4096 : Nat) = 0xE0)]
            by_cases hD : 0xD000 ≤ c ∧ c < 0xE000
            · rw [if_pos (by omega : (0xE0 + c / 4096 : Nat) = 0xED)]
              simp
              omega
            · rw [if_neg (by omega : ¬ (0xE0 + c / 4096 : Nat) = 0xED)]
              simp [utf8_cont]
              omega
        · simp [utf8_cont]
          omega
      · rw [if_neg h3]
        rw [utf8_check]
        repeat rw [if_neg (by omega)]
        rw [if_pos (by omega)]
        rw [utf8_check_tail3, Bool.and_eq_true, Bool.and_eq_true,
          Bool.and_eq_true]
        refine ⟨⟨⟨?_, ?_⟩, ?_⟩, rfl⟩
        · by_cases hE : c < 0x40000
          · rw [if_pos (by omega : (0xF0 + c / 262144 : Nat) = 0xF0)]
            simp
            omega
          · rw [if_neg (by omega : ¬ (0xF0 + c / 262144 : Nat) = 0xF0)]
            by_cases hD : 0x100000 ≤ c
            · rw [if_pos (by omega : (0xF0 + c / 262144 : Nat) = 0xF4)]
              simp
              omega
            · rw [if_neg (by omega : ¬ (0xF0 + c / 262144 : Nat) = 0xF4)]
              simp [utf8_cont]
              omega
        · simp [utf8_cont]
          omega
        · simp [utf8_cont]
          omega

theorem compact_formatter_ok : FormatterOk compact_formatter :=
  ⟨rfl, rfl, rfl, rfl, rfl, rfl, rfl, rfl, rfl, rfl, rfl, rfl, rfl,
    rfl, rfl, rfl, rfl, rfl,
    fun _ => rfl, fun _ => rfl,
    fun first _ => by cases first <;> rfl,
    fun _ => rfl, fun _ => rfl, fun _ => rfl,
    fun first _ => by cases first <;> rfl,
    fun _ => rfl, fun _ => rfl, fun _ => rfl⟩

theorem indent_two_spaces_ascii (n : Nat) :
    ∀ x ∈ indent_by n [0x20, 0x20], x < 0x80 := by
  intro x hx
  unfold indent_by at hx
  rcases List.mem_flatten.mp hx with ⟨l, hl, hxl⟩
  have hrep := List.eq_of_mem_replicate hl
  subst hrep
  simp at hxl
  omega

theorem pretty_formatter_ok : FormatterOk pretty_formatter_new := by
  refine ⟨rfl, rfl, rfl, rfl, rfl, rfl, rfl, rfl, rfl, rfl, rfl, rfl,
    rfl, rfl, rfl, rfl, rfl, rfl,
    fun _ => rfl, ?_, ?_, fun _ => rfl, fun _ => rfl, ?_, ?_,
    fun _ => rfl, fun _ => rfl, fun _ => rfl⟩
  · intro st
    apply utf8_check_ascii
    intro x hx
    rcases List.mem_append.mp hx with h | h
    · by_cases hv : st.has_value = true
      · rw [if_pos hv] at h
        rcases List.mem_append.mp h with h2 | h2
        · simp at h2
          omega
        · exact indent_two_spaces_ascii _ x h2
      · rw [if_neg hv] at h
        simp at h
    · simp at h
      omega
  · intro first st
    apply utf8_check_ascii
    intro x hx
    rcases List.mem_append.mp hx with h | h
    · cases first with
      | true =>
        rw [if_pos rfl] at h
        simp at h
        omega
      | false =>
        rw [if_neg (by simp)] at h
        simp at h
        omega
    · exact indent_two_spaces_ascii _ x h
  · intro st
    apply utf8_check_ascii
    intro x hx
    rcases List.mem_append.mp hx with h | h
    · by_cases hv : st.has_value = true
      · rw [if_pos hv] at h
        rcases List.mem_append.mp h with h2 | h2
        · simp at h2
          omega
        · exact indent_two_spaces_ascii _ x h2
      · rw [if_neg hv] at h
        simp at h
    · simp at h
      omega
  · intro first st
    apply utf8_check_ascii
    intro x hx
    rcases List.mem_append.mp hx with h | h
    · cases first with
      | true =>
        rw [if_pos rfl] at h
        simp at h
        omega
      | false =>
        rw [if_neg (by simp)] at h
        simp at h
        omega
    · exact indent_two_spaces_ascii _ x h

theorem ser_u8_elements_utf8 (F : Formatter) (hF : FormatterOk F) :
    ∀ (b : List Nat) (first : Bool) (st : FmtState),
      utf8_check (ser_u8_elements F b first st).2 = true := by
  intro b
  induction b with
  | nil => intro first st; rfl
  | cons x rest ih =>
    intro first st
    simp only [ser_u8_elements]
    apply utf8_check_append
    apply utf8_check_append
    apply utf8_check_append
    · exact hF.begin_array_value_ok first st
    · rw [hF.u8_eq]
      exact utf8_check_ascii _ (itoa_nat_ascii x)
    · exact hF.end_array_value_ok _
    · exact ih false _

theorem ser_u8_seq_utf8 (F : Formatter) (hF : FormatterOk F)
    (b : List Nat) (st : FmtState) (st2 : FmtState) (out : List Nat)
    (h : ser_u8_seq F b st = .ok (st2, out)) : utf8_check out = true := by
  simp only [ser_u8_seq] at h
  by_cases hlen : b.length = 0
  · rw [if_pos hlen] at h
    simp only [Except.ok.injEq, Prod.ext_iff] at h
    rw [← h.2]
    exact utf8_check_append _ _ (hF.begin_array_ok st)
      (hF.end_array_ok _)
  · rw [if_neg hlen] at h
    simp only [Except.ok.injEq, Prod.ext_iff] at h
    rw [← h.2]
    apply utf8_check_append
    apply utf8_check_append
    · exact hF.begin_array_ok st
    · exact ser_u8_elements_utf8 F hF b true _
    · exact hF.end_array_ok _

theorem ser_utf8_main (F : Formatter) (hF : FormatterOk F) : ∀ k : Nat,
    (∀ v st st2 out, sizeOf v ≤ k → SValue.WF v = true →
      ser_value F v st = .ok (st2, out) → utf8_check out = true) ∧
    (∀ v st st2 out, sizeOf v ≤ k → SValue.WF v = true →
      map_key_serialize F v st = .ok (st2, out) →
        utf8_check out = true) ∧
    (∀ xs first st st2 out, sizeOf xs ≤ k → SValue.WF_list xs = true →
      ser_seq_elements F xs first st = .ok (st2, out) →
        utf8_check out = true) ∧
    (∀ es first st st2 out, sizeOf es ≤ k →
      SValue.WF_entries es = true →
      ser_map_entries F es first st = .ok (st2, out) →
        utf8_check out = true) ∧
    (∀ fs first st st2 out, sizeOf fs ≤ k → SValue.WF_fields fs = true →
      ser_struct_fields F fs first st = .ok (st2, out) →
        utf8_check out = true) ∧
    (∀ xs st st2 out, sizeOf xs ≤ k → SValue.WF_list xs = true →
      ser_seq F xs st = .ok (st2, out) → utf8_check out = true) ∧
    (∀ es st st2 out, sizeOf es ≤ k → SValue.WF_entries es = true →
      ser_map F es st = .ok (st2, out) → utf8_check out = true) ∧
    (∀ fs st st2 out, sizeOf fs ≤ k → SValue.WF_fields fs = true →
      ser_struct F fs st = .ok (st2, out) → utf8_check out = true) := by
  intro k
  induction k with
  | zero =>
    refine ⟨?_, ?_, ?_, ?_, ?_, ?_, ?_, ?_⟩
    · intro v st st2 out hsz
      cases v <;> simp at hsz
    · intro v st st2 out hsz
      cases v <;> simp at hsz
    · intro xs first st st2 out hsz
      cases xs <;> simp at hsz
    · intro es first st st2 out hsz
      cases es <;> simp at hsz
    · intro fs first st st2 out hsz
      cases fs <;> simp at hsz
    · intro xs st st2 out hsz
      cases xs <;> simp at hsz
    · intro es st st2 out hsz
      cases es <;> simp at hsz
    · intro fs st st2 out hsz
      cases fs <;> simp at hsz
  | succ k ihK =>
    obtain ⟨ihV, ihKey, ihE, ihEn, ihFl, ihSeq, ihMap, ihStr⟩ := ihK
    have hElems : ∀ xs first st st2 out, sizeOf xs ≤ k + 1 →
        SValue.WF_list xs = true →
        ser_seq_elements F xs first st = .ok (st2, out) →
        utf8_check out = true := by
      intro xs first st st2 out hsz hwf h
      cases xs with
      | nil =>
        simp only [ser_seq_elements, Except.ok.injEq, Prod.ext_iff] at h
        rw [← h.2]
        rfl
      | cons x rest =>
        simp only [ser_seq_elements] at h
        simp only [SValue.WF_list, Bool.and_eq_true] at hwf
        simp only [List.cons.sizeOf_spec] at hsz
        split at h
        · simp at h
        · rename_i st5 out2 hv
          split at h
          · simp at h
          · rename_i st6 out3 hrest
            simp only [Except.ok.injEq, Prod.ext_iff] at h
            rw [← h.2]
            apply utf8_check_append
            apply utf8_check_append
            apply utf8_check_append
            · exact hF.begin_array_value_ok first st
            · exact ihV x _ _ _ (by omega) hwf.1 hv
            · exact hF.end_array_value_ok _
            · exact ihE rest false _ _ _ (by omega) hwf.2 hrest
    have hEntries : ∀ es first st st2 out, sizeOf es ≤ k + 1 →
        SValue.WF_entries es = true →
        ser_map_entries F es first st = .ok (st2, out) →
        utf8_check out = true := by
      intro es first st st2 out hsz hwf h
      cases es with
      | nil =>
        simp only [ser_map_entries, Except.ok.injEq, Prod.ext_iff] at h
        rw [← h.2]
        rfl
      | cons kv rest =>
        obtain ⟨kk, vv⟩ := kv
        simp only [ser_map_entries] at h
        simp only [SValue.WF_entries, Bool.and_eq_true] at hwf
        simp only [List.cons.sizeOf_spec, Prod.mk.sizeOf_spec] at hsz
        split at h
        · simp at h
        · rename_i st5 out2 hk
          split at h
          · simp at h
          · rename_i st6 out3 hv
            split at h
            · simp at h
            · rename_i st7 out4 hrest
              simp only [Except.ok.injEq, Prod.ext_iff] at h
              rw [← h.2]
              apply utf8_check_append
              apply utf8_check_append
              apply utf8_check_append
              apply utf8_check_append
              apply utf8_check_append
              apply utf8_check_append
              · exact hF.begin_object_key_ok first st
              · exact ihKey kk _ _ _ (by omega) hwf.1.1 hk
              · exact hF.end_object_key_ok _
              · exact hF.begin_object_value_ok _
              · exact ihV vv _ _ _ (by omega) hwf.1.2 hv
              · exact hF.end_object_value_ok _
              · exact ihEn rest false _ _ _ (by omega) hwf.2 hrest
    have hFields : ∀ fs first st st2 out, sizeOf fs ≤ k + 1 →
        SValue.WF_fields fs = true →
        ser_struct_fields F fs first st = .ok (st2, out) →
        utf8_check out = true := by
      intro fs first st st2 out hsz hwf h
      cases fs with
      | nil =>
        simp only [ser_struct_fields, Except.ok.injEq, Prod.ext_iff] at h
        rw [← h.2]
        rfl
      | cons kv rest =>
        obtain ⟨kk, vv⟩ := kv
        simp only [ser_struct_fields] at h
        simp only [SValue.WF_fields, Bool.and_eq_true] at hwf
        simp only [List.cons.sizeOf_spec, Prod.mk.sizeOf_spec] at hsz
        split at h
        · simp at h
        · rename_i st6 out3 hv
          split at h
          · simp at h
          · rename_i st7 out4 hrest
            simp only [Except.ok.injEq, Prod.ext_iff] at h
            rw [← h.2]
            apply utf8_check_append
            apply utf8_check_append
            apply utf8_check_append
            apply utf8_check_append
            apply utf8_check_append
            apply utf8_check_append
            · exact hF.begin_object_key_ok first st
            · exact format_escaped_str_utf8 F hF kk hwf.1.1 _
            · exact hF.end_object_key_ok _
            · exact hF.begin_object_value_ok _
            · exact ihV vv _ _ _ (by omega) hwf.1.2 hv
            · exact hF.end_object_value_ok _
            · exact ihFl rest false _ _ _ (by omega) hwf.2 hrest
    have hSeq : ∀ xs st st2 out, sizeOf xs ≤ k + 1 →
        SValue.WF_list xs = true →
        ser_seq F xs st = .ok (st2, out) → utf8_check out = true := by
      intro xs st st2 out hsz hwf h
      simp only [ser_seq] at h
      by_cases hlen : xs.length = 0
      · rw [if_pos hlen] at h
        simp only [Except.ok.injEq, Prod.ext_iff] at h
        rw [← h.2]
        exact utf8_check_append _ _ (hF.begin_array_ok st)
          (hF.end_array_ok _)
      · rw [if_neg hlen] at h
        rcases hel : ser_seq_elements F xs true (F.begin_array st).1
          with e | ⟨st5, out2⟩
        · rw [hel] at h
          simp at h
        · rw [hel] at h
          simp only [Except.ok.injEq, Prod.ext_iff] at h
          rw [← h.2]
          apply utf8_check_append
          apply utf8_check_append
          · exact hF.begin_array_ok st
          · exact hElems xs true _ _ _ hsz hwf hel
          · exact hF.end_array_ok _
    have hMap : ∀ es st st2 out, sizeOf es ≤ k + 1 →
        SValue.WF_entries es = true →
        ser_map F es st = .ok (st2, out) → utf8_check out = true := by
      intro es st st2 out hsz hwf h
      simp only [ser_map] at h
      by_cases hlen : es.length = 0
      · rw [if_pos hlen] at h
        simp only [Except.ok.injEq, Prod.ext_iff] at h
        rw [← h.2]
        exact utf8_check_append _ _ (hF.begin_object_ok st)
          (hF.end_object_ok _)
      · rw [if_neg hlen] at h
        rcases hel : ser_map_entries F es true (F.begin_object st).1
          with e | ⟨st5, out2⟩
        · rw [hel] at h
          simp at h
        · rw [hel] at h
          simp only [Except.ok.injEq, Prod.ext_iff] at h
          rw [← h.2]
          apply utf8_check_append
          apply utf8_check_append
          · exact hF.begin_object_ok st
          · exact hEntries es true _ _ _ hsz hwf hel
          · exact hF.end_object_ok _
    have hStruct : ∀ fs st st2 out, sizeOf fs ≤ k + 1 →
        SValue.WF_fields fs = true →
        ser_struct F fs st = .ok (st2, out) → utf8_check out = true := by
      intro fs st st2 out hsz hwf h
      simp only [ser_struct] at h
      by_cases hlen : fs.length = 0
      · rw [if_pos hlen] at h
        simp only [Except.ok.injEq, Prod.ext_iff] at h
        rw [← h.2]
        exact utf8_check_append _ _ (hF.begin_object_ok st)
          (hF.end_object_ok _)
      · rw [if_neg hlen] at h
        rcases hel : ser_struct_fields F fs true (F.begin_object st).1
          with e | ⟨st5, out2⟩
        · rw [hel] at h
          simp at h
        · rw [hel] at h
          simp only [Except.ok.injEq, Prod.ext_iff] at h
          rw [← h.2]
          apply utf8_check_append
          apply utf8_check_append
          · exact hF.begin_object_ok st
          · exact hFields fs true _ _ _ hsz hwf hel
          · exact hF.end_object_ok _
    have hKey : ∀ v st st2 out, sizeOf v ≤ k + 1 → SValue.WF v = true →
        map_key_serialize F v st = .ok (st2, out) →
        utf8_check out = true := by
      intro v st st2 out hsz hwf h
      cases v with
      | bool b => simp [map_key_serialize] at h
      | f32 fp => simp [map_key_serialize] at h
      | f64 fp => simp [map_key_serialize] at h
      | bytes b => simp [map_key_serialize] at h
      | unit => simp [map_key_serialize] at h
      | unitStruct name => simp [map_key_serialize] at h
      | newtypeVariant name variant value =>
        simp [map_key_serialize] at h
      | none => simp [map_key_serialize] at h
      | some value => simp [map_key_serialize] at h
      | seq xs => simp [map_key_serialize] at h
      | tuple xs => simp [map_key_serialize] at h
      | tupleStruct name xs => simp [map_key_serialize] at h
      | tupleVariant name variant xs => simp [map_key_serialize] at h
      | map entries => simp [map_key_serialize] at h
      | struct name fields => simp [map_key_serialize] at h
      | structVariant name variant fields =>
        simp [map_key_serialize] at h
      | str s =>
        simp only [map_key_serialize, Except.ok.injEq, Prod.ext_iff] at h
        rw [← h.2]
        simp only [SValue.WF] at hwf
        exact format_escaped_str_utf8 F hF s hwf st
      | unitVariant name variant =>
        simp only [map_key_serialize, Except.ok.injEq, Prod.ext_iff] at h
        rw [← h.2]
        simp only [SValue.WF] at hwf
        exact format_escaped_str_utf8 F hF variant hwf st
      | newtypeStruct name value =>
        simp only [map_key_serialize] at h
        simp only [SValue.WF] at hwf
        simp only [SValue.newtypeStruct.sizeOf_spec] at hsz
        exact ihKey value _ _ _ (by omega) hwf h
      | char c =>
        simp only [map_key_serialize, Except.ok.injEq, Prod.ext_iff] at h
        rw [← h.2]
        simp only [SValue.WF, Bool.and_eq_true, Bool.or_eq_true,
          decide_eq_true_eq] at hwf
        exact format_escaped_str_utf8 F hF _
          (encodeUtf8_valid c hwf.1 hwf.2) st
      | i8 v =>
        simp only [map_key_serialize, hF.begin_string_eq,
          hF.end_string_eq, hF.i8_eq, default_begin_string,
          default_end_string, default_write_int, Except.ok.injEq,
          Prod.ext_iff] at h
        rw [← h.2]
        apply utf8_check_append
        apply utf8_check_append
        · decide
        · exact utf8_check_ascii _ (itoa_int_ascii v)
        · decide
      | i16 v =>
        simp only [map_key_serialize, hF.begin_string_eq,
          hF.end_string_eq, hF.i16_eq, default_begin_string,
          default_end_string, default_write_int, Except.ok.injEq,
          Prod.ext_iff] at h
        rw [← h.2]
        apply utf8_check_append
        apply utf8_check_append
        · decide
        · exact utf8_check_ascii _ (itoa_int_ascii v)
        · decide
      | i32 v =>
        simp only [map_key_serialize, hF.begin_string_eq,
          hF.end_string_eq, hF.i32_eq, default_begin_string,
          default_end_string, default_write_int, Except.ok.injEq,
          Prod.ext_iff] at h
        rw [← h.2]
        apply utf8_check_append
        apply utf8_check_append
        · decide
        · exact utf8_check_ascii _ (itoa_int_ascii v)
        · decide
      | i64 v =>
        simp only [map_key_serialize, hF.begin_string_eq,
          hF.end_string_eq, hF.i64_eq, default_begin_string,
          default_end_string, default_write_int, Except.ok.injEq,
          Prod.ext_iff] at h
        rw [← h.2]
        apply utf8_check_append
        apply utf8_check_append
        · decide
        · exact utf8_check_ascii _ (itoa_int_ascii v)
        · decide
      | i128 v =>
        simp only [map_key_serialize, hF.begin_string_eq,
          hF.end_string_eq, hF.i128_eq, default_begin_string,
          default_end_string, default_write_int, Except.ok.injEq,
          Prod.ext_iff] at h
        rw [← h.2]
        apply utf8_check_append
        apply utf8_check_append
        · decide
        · exact utf8_check_ascii _ (itoa_int_ascii v)
        · decide
      | u8 v =>
        simp only [map_key_serialize, hF.begin_string_eq,
          hF.end_string_eq, hF.u8_eq, default_begin_string,
          default_end_string, default_write_nat, Except.ok.injEq,
          Prod.ext_iff] at h
        rw [← h.2]
        apply utf8_check_append
        apply utf8_check_append
        · decide
        · exact utf8_check_ascii _ (itoa_nat_ascii v)
        · decide
      | u16 v =>
        simp only [map_key_serialize, hF.begin_string_eq,
          hF.end_string_eq, hF.u16_eq, default_begin_string,
          default_end_string, default_write_nat, Except.ok.injEq,
          Prod.ext_iff] at h
        rw [← h.2]
        apply utf8_check_append
        apply utf8_check_append
        · decide
        · exact utf8_check_ascii _ (itoa_nat_ascii v)
        · decide
      | u32 v =>
        simp only [map_key_serialize, hF.begin_string_eq,
          hF.end_string_eq, hF.u32_eq, default_begin_string,
          default_end_string, default_write_nat, Except.ok.injEq,
          Prod.ext_iff] at h
        rw [← h.2]
        apply utf8_check_append
        apply utf8_check_append
        · decide
        · exact utf8_check_ascii _ (itoa_nat_ascii v)
        · decide
      | u64 v =>
        simp only [map_key_serialize, hF.begin_string_eq,
          hF.end_string_eq, hF.u64_eq, default_begin_string,
          default_end_string, default_write_nat, Except.ok.injEq,
          Prod.ext_iff] at h
        rw [← h.2]
        apply utf8_check_append
        apply utf8_check_append
        · decide
        · exact utf8_check_ascii _ (itoa_nat_ascii v)
        · decide
      | u128 v =>
        simp only [map_key_serialize, hF.begin_string_eq,
          hF.end_string_eq, hF.u128_eq, default_begin_string,
          default_end_string, default_write_nat, Except.ok.injEq,
          Prod.ext_iff] at h
        rw [← h.2]
        apply utf8_check_append
        apply utf8_check_append
        · decide
        · exact utf8_check_ascii _ (itoa_nat_ascii v)
        · decide
    have hVal : ∀ v st st2 out, sizeOf v ≤ k + 1 → SValue.WF v = true →
        ser_value F v st = .ok (st2, out) → utf8_check out = true := by
      intro v st st2 out hsz hwf h
      cases v with
      | bool b =>
        simp only [ser_value, hF.bool_eq, default_write_bool,
          Except.ok.injEq, Prod.ext_iff] at h
        rw [← h.2]
        cases b <;> rfl
      | i8 v =>
        simp only [ser_value, hF.i8_eq, default_write_int,
          Except.ok.injEq, Prod.ext_iff] at h
        rw [← h.2]
        exact utf8_check_ascii _ (itoa_int_ascii v)
      | i16 v =>
        simp only [ser_value, hF.i16_eq, default_write_int,
          Except.ok.injEq, Prod.ext_iff] at h
        rw [← h.2]
        exact utf8_check_ascii _ (itoa_int_ascii v)
      | i32 v =>
        simp only [ser_value, hF.i32_eq, default_write_int,
          Except.ok.injEq, Prod.ext_iff] at h
        rw [← h.2]
        exact utf8_check_ascii _ (itoa_int_ascii v)
      | i64 v =>
        simp only [ser_value, hF.i64_eq, default_write_int,
          Except.ok.injEq, Prod.ext_iff] at h
        rw [← h.2]
        exact utf8_check_ascii _ (itoa_int_ascii v)
      | i128 v =>
        simp only [ser_value, hF.i128_eq, default_write_int,
          Except.ok.injEq, Prod.ext_iff] at h
        rw [← h.2]
        exact utf8_check_ascii _ (itoa_int_ascii v)
      | u8 v =>
        simp only [ser_value, hF.u8_eq, default_write_nat,
          Except.ok.injEq, Prod.ext_iff] at h
        rw [← h.2]
        exact utf8_check_ascii _ (itoa_nat_ascii v)
      | u16 v =>
        simp only [ser_value, hF.u16_eq, default_write_nat,
          Except.ok.injEq, Prod.ext_iff] at h
        rw [← h.2]
        exact utf8_check_ascii _ (itoa_nat_ascii v)
      | u32 v =>
        simp only [ser_value, hF.u32_eq, default_write_nat,
          Except.ok.injEq, Prod.ext_iff] at h
        rw [← h.2]
        exact utf8_check_ascii _ (itoa_nat_ascii v)
      | u64 v =>
        simp only [ser_value, hF.u64_eq, default_write_nat,
          Except.ok.injEq, Prod.ext_iff] at h
        rw [← h.2]
        exact utf8_check_ascii _ (itoa_nat_ascii v)
      | u128 v =>
        simp only [ser_value, hF.u128_eq, default_write_nat,
          Except.ok.injEq, Prod.ext_iff] at h
        rw [← h.2]
        exact utf8_check_ascii _ (itoa_nat_ascii v)
      | f32 fp =>
        cases fp with
        | nan =>
          simp only [ser_value, Fp.classify, hF.null_eq,
            default_write_null, Except.ok.injEq, Prod.ext_iff] at h
          rw [← h.2]
          rfl
        | infinite neg =>
          simp only [ser_value, Fp.classify, hF.null_eq,
            default_write_null, Except.ok.injEq, Prod.ext_iff] at h
          rw [← h.2]
          rfl
        | finite r =>
          simp only [ser_value, Fp.classify, hF.f32_eq, default_write_f,
            ryu_format_finite, Except.ok.injEq, Prod.ext_iff] at h
          rw [← h.2]
          simp only [SValue.WF, Fp.ascii_repr, List.all_eq_true,
            decide_eq_true_eq] at hwf
          exact utf8_check_ascii _ hwf
      | f64 fp =>
        cases fp with
        | nan =>
          simp only [ser_value, Fp.classify, hF.null_eq,
            default_write_null, Except.ok.injEq, Prod.ext_iff] at h
          rw [← h.2]
          rfl
        | infinite neg =>
          simp only [ser_value, Fp.classify, hF.null_eq,
            default_write_null, Except.ok.injEq, Prod.ext_iff] at h
          rw [← h.2]
          rfl
        | finite r =>
          simp only [ser_value, Fp.classify, hF.f64_eq, default_write_f,
            ryu_format_finite, Except.ok.injEq, Prod.ext_iff] at h
          rw [← h.2]
          simp only [SValue.WF, Fp.ascii_repr, List.all_eq_true,
            decide_eq_true_eq] at hwf
          exact utf8_check_ascii _ hwf
      | char c =>
        simp only [ser_value, Except.ok.injEq, Prod.ext_iff] at h
        rw [← h.2]
        simp only [SValue.WF, Bool.and_eq_true, Bool.or_eq_true,
          decide_eq_true_eq] at hwf
        exact format_escaped_str_utf8 F hF _
          (encodeUtf8_valid c hwf.1 hwf.2) st
      | str s =>
        simp only [ser_value, Except.ok.injEq, Prod.ext_iff] at h
        rw [← h.2]
        simp only [SValue.WF] at hwf
        exact format_escaped_str_utf8 F hF s hwf st
      | bytes b =>
        simp only [ser_value] at h
        exact ser_u8_seq_utf8 F hF b st st2 out h
      | unit =>
        simp only [ser_value, hF.null_eq, default_write_null,
          Except.ok.injEq, Prod.ext_iff] at h
        rw [← h.2]
        rfl
      | unitStruct name =>
        simp only [ser_value, hF.null_eq, default_write_null,
          Except.ok.injEq, Prod.ext_iff] at h
        rw [← h.2]
        rfl
      | none =>
        simp only [ser_value, hF.null_eq, default_write_null,
          Except.ok.injEq, Prod.ext_iff] at h
        rw [← h.2]
        rfl
      | unitVariant name variant =>
        simp only [ser_value, Except.ok.injEq, Prod.ext_iff] at h
        rw [← h.2]
        simp only [SValue.WF] at hwf
        exact format_escaped_str_utf8 F hF variant hwf st
      | newtypeStruct name value =>
        simp only [ser_value] at h
        simp only [SValue.WF] at hwf
        simp only [SValue.newtypeStruct.sizeOf_spec] at hsz
        exact ihV value _ _ _ (by omega) hwf h
      | some value =>
        simp only [ser_value] at h
        simp only [SValue.WF] at hwf
        simp only [SValue.some.sizeOf_spec] at hsz
        exact ihV value _ _ _ (by omega) hwf h
      | newtypeVariant name variant value =>
        simp only [ser_value] at h
        simp only [SValue.WF, Bool.and_eq_true] at hwf
        simp only [SValue.newtypeVariant.sizeOf_spec] at hsz
        split at h
        · simp at h
        · rename_i st5 out2 hv
          simp only [Except.ok.injEq, Prod.ext_iff] at h
          rw [← h.2]
          apply utf8_check_append
          apply utf8_check_append
          apply utf8_check_append
          apply utf8_check_append
          apply utf8_check_append
          apply utf8_check_append
          apply utf8_check_append
          · exact hF.begin_object_ok st
          · exact hF.begin_object_key_ok true _
          · exact format_escaped_str_utf8 F hF variant hwf.1 _
          · exact hF.end_object_key_ok _
          · exact hF.begin_object_value_ok _
          · exact ihV value _ _ _ (by omega) hwf.2 hv
          · exact hF.end_object_value_ok _
          · exact hF.end_object_ok _
      | seq xs =>
        simp only [ser_value] at h
        simp only [SValue.WF] at hwf
        simp only [SValue.seq.sizeOf_spec] at hsz
        exact hSeq xs _ _ _ (by omega) hwf h
      | tuple xs =>
        simp only [ser_value] at h
        simp only [SValue.WF] at hwf
        simp only [SValue.tuple.sizeOf_spec] at hsz
        exact hSeq xs _ _ _ (by omega) hwf h
      | tupleStruct name xs =>
        simp only [ser_value] at h
        simp only [SValue.WF] at hwf
        simp only [SValue.tupleStruct.sizeOf_spec] at hsz
        exact hSeq xs _ _ _ (by omega) hwf h
      | tupleVariant name variant xs =>
        simp only [ser_value] at h
        simp only [SValue.WF, Bool.and_eq_true] at hwf
        simp only [SValue.tupleVariant.sizeOf_spec] at hsz
        split at h
        · simp at h
        · rename_i st5 out2 hv
          simp only [Except.ok.injEq, Prod.ext_iff] at h
          rw [← h.2]
          apply utf8_check_append
          apply utf8_check_append
          apply utf8_check_append
          apply utf8_check_append
          apply utf8_check_append
          apply utf8_check_append
          apply utf8_check_append
          · exact hF.begin_object_ok st
          · exact hF.begin_object_key_ok true _
          · exact format_escaped_str_utf8 F hF variant hwf.1 _
          · exact hF.end_object_key_ok _
          · exact hF.begin_object_value_ok _
          · exact hSeq xs _ _ _ (by omega) hwf.2 hv
          · exact hF.end_object_value_ok _
          · exact hF.end_object_ok _
      | map entries =>
        simp only [ser_value] at h
        simp only [SValue.WF] at hwf
        simp only [SValue.map.sizeOf_spec] at hsz
        exact hMap entries _ _ _ (by omega) hwf h
      | struct name fields =>
        simp only [ser_value] at h
        simp only [SValue.WF] at hwf
        simp only [SValue.struct.sizeOf_spec] at hsz
        exact hStruct fields _ _ _ (by omega) hwf h
      | structVariant name variant fields =>
        simp only [ser_value] at h
        simp only [SValue.WF, Bool.and_eq_true] at hwf
        simp only [SValue.structVariant.sizeOf_spec] at hsz
        split at h
        · simp at h
        · rename_i st5 out2 hv
          simp only [Except.ok.injEq, Prod.ext_iff] at h
          rw [← h.2]
          apply utf8_check_append
          apply utf8_check_append
          apply utf8_check_append
          apply utf8_check_append
          apply utf8_check_append
          apply utf8_check_append
          apply utf8_check_append
          · exact hF.begin_object_ok st
          · exact hF.begin_object_key_ok true _
          · exact format_escaped_str_utf8 F hF variant hwf.1 _
          · exact hF.end_object_key_ok _
          · exact hF.begin_object_value_ok _
          · exact hStruct fields _ _ _ (by omega) hwf.2 hv
          · exact hF.end_object_value_ok _
          · exact hF.end_object_ok _
    exact ⟨hVal, hKey, hElems, hEntries, hFields, hSeq, hMap, hStruct⟩

/-- C10: for every well-formed value - the invariants the Rust types
grant the serializer: str and static names hold valid UTF-8, char holds
a Unicode scalar value, finite floats carry the ASCII bytes ryu prints -
a successful to_vec (CompactFormatter) or to_vec_pretty
(PrettyFormatter) produces a byte vector accepted by the UTF-8
validator, so the unchecked str conversion inside to_string /
to_string_pretty never builds a malformed String. -/
theorem claim_C10 :
    (∀ v out, SValue.WF v = true → to_vec v = .ok out →
      utf8_check out = true) ∧
    (∀ v out, SValue.WF v = true → to_vec_pretty v = .ok out →
      utf8_check out = true) := by
  constructor
  · intro v out hwf h
    simp only [to_vec] at h
    split at h
    · simp at h
    · rename_i st2 out2 hser
      simp only [Except.ok.injEq] at h
      subst h
      exact ((ser_utf8_main compact_formatter compact_formatter_ok
        (sizeOf v)).1) v _ _ _ (Nat.le_refl _) hwf hser
  · intro v out hwf h
    simp only [to_vec_pretty] at h
    split at h
    · simp at h
    · rename_i st2 out2 hser
      simp only [Except.ok.injEq] at h
      subst h
      exact ((ser_utf8_main pretty_formatter_new pretty_formatter_ok
        (sizeOf v)).1) v _ _ _ (Nat.le_refl _) hwf hser

unseal ser_value ser_seq ser_map ser_seq_elements ser_map_entries
  ser_struct ser_struct_fields fesc_loop nat_decimal_rev in
theorem claim_C10_witness :
    SValue.WF (.seq [.str [0x61], .u8 10]) = true ∧
    to_vec (.seq [.str [0x61], .u8 10])
      = .ok [0x5B, 0x22, 0x61, 0x22, 0x2C, 0x31, 0x30, 0x5D] ∧
    utf8_check [0x5B, 0x22, 0x61, 0x22, 0x2C, 0x31, 0x30, 0x5D]
      = true :=
  ⟨by decide, by decide,
    claim_C10.1 (.seq [.str [0x61], .u8 10]) _ (by decide) (by decide)⟩
